import Mathlib

/-!
Verification of the `dataviews` core (dataviews.py) of the imagen repository:
leaf views (Curve, Histogram), DataOverlay, the Stack container, its
composition operator, `split_axis`, `sample`, and the TableStack
specialization.  Numeric payloads are embedded as rationals; Python
ordered dictionaries are embedded as insertion-ordered association lists.

Classes that dataviews.py imports from sibling modules missing from the
sources (`ndmapping.NdMapping`, `views.View`/`Overlay`/`Annotation`) are
modelled from the specification where noted in the doc comments.
-/

namespace DV

/-- Error kinds, following the spec's taxonomy (kinds, not Python type
names).  `typeErr` is the homogeneity kind (raised as `AssertionError` /
`TypeError` by the code), `valueErr` the shape kind, `labelErr` the
Overlay label-mismatch kind, `keyErr` a failed mapping lookup. -/
inductive Err where
  | typeErr
  | valueErr
  | labelErr
  | keyErr
  deriving DecidableEq, Repr

/-- Minimum of a list of rationals; `none` on the empty list (Python's
`min([])` raises). -/
def listMin : List Rat → Option Rat
  | [] => none
  | a :: l => some (l.foldl min a)

/-- Maximum of a list of rationals; `none` on the empty list. -/
def listMax : List Rat → Option Rat
  | [] => none
  | a :: l => some (l.foldl max a)

/-- `find_minmax` (dataviews.py lines 9-16): given `(a1, a2)` and
`(b1, b2)` returns `(min a1 b1, max a2 b2)`. -/
def find_minmax (lims olims : Rat × Rat) : Rat × Rat :=
  (min lims.1 olims.1, max lims.2 olims.2)

/-- The labelling metadata every View carries (`param.String` attributes
declared on `View`/`DataLayer`). -/
structure Labels where
  xlabel : String := ""
  ylabel : String := ""
  label : String := ""
  title : String := ""
  legend_label : String := ""
  style : String := ""
  deriving DecidableEq, Repr

/-- A leaf data view: `Curve` (list of (x, y) points plus an optional
`cyclic_range`), `Histogram` (values and bin edges plus an optional
`cyclic_range`), or an `Annotation` marker (exempt from label and limit
checks when overlaid). -/
inductive Leaf where
  | curve (data : List (Rat × Rat)) (cyclic_range : Option Rat) (lbl : Labels)
  | histogram (values edges : List Rat) (cyclic_range : Option Rat) (lbl : Labels)
  | annot (lbl : Labels)
  deriving DecidableEq, Repr

/-- The labels of a leaf. -/
def Leaf.lbls : Leaf → Labels
  | .curve _ _ l => l
  | .histogram _ _ _ l => l
  | .annot l => l

/-- Whether the leaf is an `Annotation` (the `isinstance(layer, Annotation)`
test of `DataOverlay.add`). -/
def Leaf.isAnnot : Leaf → Bool
  | .annot _ => true
  | _ => false

/-- `Curve.xlim` / `Histogram.xlim` (dataviews.py lines 66-69, 138-143).
For a Curve the pair is `(min x_vals, cyclic_range if cyclic_range else
max x_vals)` — Python truthiness: a `None` or zero `cyclic_range` falls
back to the data maximum.  For a Histogram with a non-`None`
`cyclic_range` it is `(0, cyclic_range)`, else `(min edges, max edges)`.
`none` when the underlying data is empty (Python would raise). -/
def Leaf.xlim : Leaf → Option (Rat × Rat)
  | .curve data cr _ =>
    match listMin (data.map Prod.fst), listMax (data.map Prod.fst) with
    | some lo, some hi =>
      some (lo, match cr with
                | some c => if c = 0 then hi else c
                | none => hi)
    | _, _ => none
  | .histogram _ edges cr _ =>
    match cr with
    | some c => some (0, c)
    | none =>
      match listMin edges, listMax edges with
      | some lo, some hi => some (lo, hi)
      | _, _ => none
  | .annot _ => none

/-- `Curve.ylim` / `Histogram.ylim` (dataviews.py lines 72-77, 146-148):
`(min, max)` of the y values (Curve) or of the bin values (Histogram). -/
def Leaf.ylim : Leaf → Option (Rat × Rat)
  | .curve data _ _ =>
    match listMin (data.map Prod.snd), listMax (data.map Prod.snd) with
    | some lo, some hi => some (lo, hi)
    | _, _ => none
  | .histogram values _ _ _ =>
    match listMin values, listMax values with
    | some lo, some hi => some (lo, hi)
    | _, _ => none
  | .annot _ => none

/-- `DataOverlay` state: the member list plus the running bounding box and
the shared axis labels (instance attributes written by `add`).  A fresh
overlay (`DataOverlay.__init__` before `set`) has no members and no
bounding box. -/
structure DataOverlay where
  data : List Leaf := []
  xlim : Option (Rat × Rat) := none
  ylim : Option (Rat × Rat) := none
  xlabel : String := ""
  ylabel : String := ""
  style : String := ""
  deriving DecidableEq, Repr

/-- `DataOverlay.add` (dataviews.py lines 165-178), embedded as a state
transformer returning the mutated overlay together with the error raised,
if any — the returned state reflects exactly the attribute writes executed
before the raise.  Annotations are appended unchecked; the first
non-annotation member seeds `xlim`/`ylim`/`xlabel`/`ylabel`; later members
first update `xlim` and `ylim` via `find_minmax` and only then have their
labels checked, so a label mismatch is raised *after* the bounding box has
been rewritten (and before the member list is extended).  A member whose
limits are undefined (empty data) raises where the code would evaluate its
`xlim`. -/
def DataOverlay.add (o : DataOverlay) (layer : Leaf) : DataOverlay × Option Err :=
  if layer.isAnnot then ({ o with data := o.data ++ [layer] }, none)
  else if o.data.length = 0 then
    match layer.xlim, layer.ylim with
    | some xl, some yl =>
      ({ o with xlim := some xl, ylim := some yl,
                xlabel := layer.lbls.xlabel, ylabel := layer.lbls.ylabel,
                data := o.data ++ [layer] }, none)
    | _, _ => (o, some Err.valueErr)
  else
    match o.xlim, o.ylim, layer.xlim, layer.ylim with
    | some oxl, some oyl, some lxl, some lyl =>
      let upd := { o with xlim := some (find_minmax oxl lxl),
                          ylim := some (find_minmax oyl lyl) }
      if layer.lbls.xlabel ≠ o.xlabel ∨ layer.lbls.ylabel ≠ o.ylabel then
        (upd, some Err.labelErr)
      else
        ({ upd with data := upd.data ++ [layer] }, none)
    | _, _, _, _ => (o, some Err.valueErr)

/-- `Overlay.set` as used by `DataOverlay.__init__` (dataviews.py lines
160-162).  Modelled from the spec: `views.Overlay.set` is not in src/;
per spec section 3 an Overlay's limits are "the running element-wise
min/max across members, seeded by the first member's limits", i.e. the
constructor adds the given layers one by one, stopping at the first
raise. -/
def DataOverlay.set (o : DataOverlay) : List Leaf → DataOverlay × Option Err
  | [] => (o, none)
  | l :: rest =>
    match o.add l with
    | (o1, none) => o1.set rest
    | (o1, some e) => (o1, some e)

/-- `DataLayer.__mul__` for two leaf operands (dataviews.py lines 33-49,
branch `isinstance(other, DataLayer)`): builds `DataOverlay([self, other])`,
whose constructor `set`s both layers. -/
def mulLayer (a b : Leaf) : DataOverlay × Option Err :=
  DataOverlay.set {} [a, b]

/-- `DataOverlay * leaf` (`DataLayer.__mul__`, the `isinstance(self,
DataOverlay)` branch): a fresh `DataOverlay` over `self.data + [other]`. -/
def mulOverlayLayer (o : DataOverlay) (b : Leaf) : DataOverlay × Option Err :=
  DataOverlay.set {} (o.data ++ [b])

/-- First-match association-list lookup: the embedding of lookup in a
Python (ordered) dict whose items are kept in insertion order. -/
def assocLookup [DecidableEq κ] : List (κ × β) → κ → Option β
  | [], _ => none
  | p :: l, k => if p.1 = k then some p.2 else assocLookup l k

/-- In-place value replacement at a key (Python `d[k] = v` on a present
key keeps the entry's position). -/
def assocReplace [DecidableEq κ] (l : List (κ × β)) (k : κ) (v : β) : List (κ × β) :=
  l.map (fun p => if p.1 = k then (k, v) else p)

/-- The runtime class of a stored view, used by the homogeneity check
(`type(data) != self.type`). -/
inductive VClass where
  | curveC
  | histogramC
  | annotC
  | overlayC
  | tableC
  deriving DecidableEq, Repr

/-- Runtime class of a leaf. -/
def Leaf.cls : Leaf → VClass
  | .curve _ _ _ => .curveC
  | .histogram _ _ _ _ => .histogramC
  | .annot _ => .annotC

/-- `__class__.__name__` of a leaf, as interpolated into titles. -/
def Leaf.clsName : Leaf → String
  | .curve _ _ _ => "Curve"
  | .histogram _ _ _ _ => "Histogram"
  | .annot _ => "Annotation"

/-- Replace a leaf's title (the `layer.title = ...` write of
`Stack._set_title`). -/
def Leaf.withTitle (t : String) : Leaf → Leaf
  | .curve d c l => .curve d c { l with title := t }
  | .histogram v e c l => .histogram v e c { l with title := t }
  | .annot l => .annot { l with title := t }

/-- Replace a leaf's style tag (the `data.style = self.style` write of
`Stack._item_check`). -/
def Leaf.withStyle (s : String) : Leaf → Leaf
  | .curve d c l => .curve d c { l with style := s }
  | .histogram v e c l => .histogram v e c { l with style := s }
  | .annot l => .annot { l with style := s }

/-- A value stored in a `DataStack` entry: a bare leaf view or a
`DataOverlay` (Python stacks are dynamically typed, so both occur). -/
inductive SVal where
  | leaf (l : Leaf)
  | olay (o : DataOverlay)
  deriving DecidableEq, Repr

/-- Runtime class of a stored value. -/
def SVal.cls : SVal → VClass
  | .leaf l => l.cls
  | .olay _ => .overlayC

/-- Style tag of a stored value. -/
def SVal.style : SVal → String
  | .leaf l => l.lbls.style
  | .olay o => o.style

/-- Set the style tag of a stored value. -/
def SVal.setStyle (v : SVal) (s : String) : SVal :=
  match v with
  | .leaf l => .leaf (l.withStyle s)
  | .olay o => .olay { o with style := s }

/-- `stored value * leaf`, the dispatch `DataLayer.__mul__` performs on
the runtime class of the left operand. -/
def SVal.mulLeaf (v : SVal) (c : Leaf) : DataOverlay × Option Err :=
  match v with
  | .leaf l => mulLayer l c
  | .olay o => mulOverlayLayer o c

/-- Modelled from the spec: `Dimension.pprint_value` (ndmapping.py, not in
src/) — the per-Dimension "value-formatting rule `format: value → string`"
used when rendering a key; rendered here as `name = value`. -/
def pprint_value (dim : String) (v : Int) : String :=
  dim ++ " = " ++ toString v

/-- The `dims` string of `Stack._set_title` (dataviews.py lines 255-260):
pretty-printed dimension/value pairs, grouped two per line (`group_size=2`,
with the source's `range(len(dimension_labels))` producing trailing empty
groups that are filtered out), lines joined with a newline and space. -/
def dimsString (dims : List String) (key : List Int) : String :=
  let labels := (dims.zip key).map (fun p => pprint_value p.1 p.2)
  let groups := (List.range labels.length).map
    (fun i => String.intercalate ", " ((labels.drop (i * 2)).take 2))
  String.intercalate "\n " (groups.filter (fun g => g ≠ ""))

/-- One-pass substitution of the `label`, `type` and `dims` placeholders
(each written between braces in the template) into a character list — the
embedding of Python `str.format` for the three formatters of
`Stack._set_title`. -/
def substTemplate (label tname dims : String) : List Char → List Char
  | [] => []
  | '\x7b' :: 'l' :: 'a' :: 'b' :: 'e' :: 'l' :: '\x7d' :: rest =>
    label.data ++ substTemplate label tname dims rest
  | '\x7b' :: 't' :: 'y' :: 'p' :: 'e' :: '\x7d' :: rest =>
    tname.data ++ substTemplate label tname dims rest
  | '\x7b' :: 'd' :: 'i' :: 'm' :: 's' :: '\x7d' :: rest =>
    dims.data ++ substTemplate label tname dims rest
  | c :: rest => c :: substTemplate label tname dims rest

/-- `self.title.format(**format_dict)` with the `dims`, `label` and `type`
formatters of `Stack._set_title`. -/
def formatTitle (tmpl dims label tname : String) : String :=
  String.mk (substTemplate label tname dims tmpl.data)

/-- `Stack._set_title` (dataviews.py lines 250-267) applied to the item
being inserted: skipped for a 1-dimensional stack over the placeholder
`Default` dimension; an Overlay item has each member layer retitled from
its own label and class, any other item is retitled itself. -/
def setTitleSVal (tmpl : String) (dims : List String) (key : List Int) (v : SVal) : SVal :=
  if dims.length = 1 ∧ "Default" ∈ dims then v
  else
    let ds := dimsString dims key
    match v with
    | .leaf l => .leaf (l.withTitle (formatTitle tmpl ds l.lbls.label l.clsName))
    | .olay o => .olay { o with
        data := o.data.map (fun l => l.withTitle (formatTitle tmpl ds l.lbls.label l.clsName)) }

/-- A `DataStack` of view values: the ordered mapping (insertion-ordered
association list, modelled from the spec's "ordered associative structure
that preserves insertion order" for the NdMapping base class not in src/),
the dimension-label list, the lazily cached content type and style of
`Stack`, and the title template. -/
structure VStack where
  dims : List String
  data : List (List Int × SVal) := []
  type_cache : Option VClass := none
  style_cache : Option String := none
  title : String := "{label} \n {dims}"
  deriving DecidableEq, Repr

/-- Modelled from the spec: `NdMapping.top` (ndmapping.py, not in src/) —
"the first item in insertion order" that seeds the stack's derived
properties (spec section 4.1). -/
def VStack.top (S : VStack) : Option SVal :=
  (S.data.map Prod.snd).head?

/-- `Stack.type` (dataviews.py lines 207-214): the cached content type,
computed from `top` on first non-empty read. -/
def VStack.typeF (S : VStack) : Option VClass :=
  match S.type_cache with
  | some t => some t
  | none => S.top.map SVal.cls

/-- `Stack.style` (dataviews.py lines 217-224): the cached style tag,
computed from `top` on first non-empty read. -/
def VStack.styleF (S : VStack) : Option String :=
  match S.style_cache with
  | some s => some s
  | none => S.top.map SVal.style

/-- `Stack._item_check` (dataviews.py lines 239-247) followed by the
NdMapping key-arity validation (modelled from spec section 4.1: "fails
with a ValueError-class error if key arity mismatches") and
`Stack._set_title`.  Returns the item as mutated by the executed steps
together with the error raised, if any.  The homogeneity check
(`type(data) != self.type`, raised as an `AssertionError`) runs *before*
the arity check, so a conflicting type fails regardless of key. -/
def VStack.item_check (S : VStack) (dim_vals : List Int) (v : SVal) : SVal × Option Err :=
  let v1 := match S.styleF with
    | some s => if v.style ≠ s then v.setStyle s else v
    | none => v
  if S.typeF.isSome ∧ S.typeF ≠ some v.cls then (v1, some Err.typeErr)
  else if dim_vals.length ≠ S.dims.length then (v1, some Err.valueErr)
  else (setTitleSVal S.title S.dims dim_vals v1, none)

/-- Item assignment `stack[key] = value`.  Modelled from the spec for the
NdMapping part (ndmapping.py not in src/): validation and title assignment
happen through `_item_check` before the mapping is touched, so a failed
check leaves the stack unchanged; a new key is appended in insertion
order; assignment at an existing key stores the assigned value (spec
section 4.3 step 5: `stack[key] *= curve` leaves the composed overlay as
the entry). -/
def VStack.setItem (S : VStack) (key : List Int) (v : SVal) : VStack × Option Err :=
  match S.item_check key v with
  | (_, some e) => (S, some e)
  | (v1, none) =>
    if (assocLookup S.data key).isSome then
      ({ S with data := assocReplace S.data key (v1) }, none)
    else
      ({ S with data := S.data ++ [(key, v1)] }, none)

/-- `OrderedDict.fromkeys`: deduplicate, keeping the first occurrence of
each element in order. -/
def dedupFirst [DecidableEq γ] : List γ → List γ
  | [] => []
  | a :: l => a :: dedupFirst (l.filter (fun b => b ≠ a))
  termination_by l => l.length
  decreasing_by
    simp only [List.length_cons]
    exact Nat.lt_succ_of_le (List.length_filter_le _ _)

/-- Stable insertion into a sorted list (`le` reflexive makes the overall
sort behave like Python's stable `sorted`). -/
def orderedInsertB (le : γ → γ → Bool) (a : γ) : List γ → List γ
  | [] => [a]
  | b :: l => if le a b then a :: b :: l else b :: orderedInsertB le a l

/-- Stable insertion sort, the embedding of Python's `sorted`. -/
def insertionSortB (le : γ → γ → Bool) : List γ → List γ
  | [] => []
  | a :: l => orderedInsertB le a (insertionSortB le l)

/-- Python `<` on `(dimension-label, value)` pairs (tuple comparison:
first component, then second). -/
def pairLtB (p q : String × Int) : Bool :=
  p.1 < q.1 || (p.1 = q.1 && p.2 < q.2)

/-- Python `<=` on tuples of `(dimension-label, value)` pairs
(lexicographic, shorter prefix first). -/
def dkLeB : List (String × Int) → List (String × Int) → Bool
  | [], _ => true
  | _ :: _, [] => false
  | p :: ps, q :: qs => if p = q then dkLeB ps qs else pairLtB p q

/-- Python `<=` on keys (tuples of dimension values). -/
def keyLeB : List Int → List Int → Bool
  | [], _ => true
  | _ :: _, [] => false
  | x :: xs, y :: ys => if x = y then keyLeB xs ys else x < y

/-- Python `<=` on `(dimension-index, value)` pairs. -/
def pairIdxLeB (p q : Nat × Int) : Bool :=
  p.1 < q.1 || (p.1 = q.1 && p.2 ≤ q.2)

/-- `k[:i] + (x,) + k[i:]` — the expanded key of `split_axis`. -/
def insertAt (i : Nat) (x : Int) (k : List Int) : List Int :=
  k.take i ++ x :: k.drop i

/-- `k[:i] + k[i+1:]` — the reduced key of `_split_keys_by_axis`. -/
def removeAt (i : Nat) (k : List Int) : List Int :=
  k.take i ++ k.drop (i + 1)

/-- The combinatorial core of a `Stack` (dataviews.py line 186): the
dimension-label list, the ordered `Key → value` mapping (insertion-ordered
association list, modelled from the spec's "ordered associative structure
that preserves insertion order" for the NdMapping base not in src/), and
the `empty_element` placeholder (`self._type(None)`, dataviews.py lines
234-236, abstracted to a per-stack value of the content type). -/
structure MStack (α : Type) where
  dims : List String
  data : List (List Int × α)
  empty_element : α

/-- `NdMapping.dim_index`: position of a dimension label.  Modelled from
the spec (ndmapping.py not in src/): dimensions are identified by name and
`dim_index` is the index in the Stack's dimension list. -/
def MStack.dim_index (S : MStack α) (d : String) : Nat :=
  S.dims.indexOf d

/-- The stored keys of a stack. -/
def MStack.keys (S : MStack α) : List (List Int) :=
  S.data.map Prod.fst

/-- `NdMapping.dimension_keys`: each stored key zipped with the dimension
labels.  Modelled from the spec (ndmapping.py not in src/): `Stack.__mul__`
iterates its elements as `(dimension-label, value)` pairs. -/
def MStack.dimension_keys (S : MStack α) : List (List (String × Int)) :=
  S.data.map (fun p => S.dims.zip p.1)

/-- `Stack._split_keys_by_axis` (dataviews.py lines 354-362): the axis
values `k[x_ndim]` and the shortened keys `k[:x_ndim] + k[x_ndim+1:]` of
the given keys, each deduplicated in first-occurrence order
(`map_type.fromkeys`).  Out-of-range indexing (impossible for well-formed
keys) takes a default here where Python would raise. -/
def MStack.split_keys_by_axis (S : MStack α) (keys : List (List Int)) (x_axis : String) :
    List Int × List (List Int) :=
  let x_ndim := S.dim_index x_axis
  (dedupFirst (keys.map (fun k => k.getD x_ndim 0)),
   dedupFirst (keys.map (fun k => removeAt x_ndim k)))

/-- `Stack.split_axis` (dataviews.py lines 365-395): the nested mapping
`reduced key → (axis value → stored view)`, where an inner entry is
present only when the re-expanded key `k[:x_ndim] + (x,) + k[x_ndim:]`
exists among the stored keys.  (The `_check_key_type` flag toggled around
the loop is restored before returning and does not affect the result.) -/
def MStack.split_axis (S : MStack α) (x_axis : String) :
    List (List Int × List (Int × α)) :=
  let x_ndim := S.dim_index x_axis
  let keys := S.keys
  let xv := S.split_keys_by_axis keys x_axis
  xv.2.map (fun rk =>
    (rk, xv.1.filterMap (fun x =>
      let expanded_key := insertAt x_ndim x rk
      if expanded_key ∈ keys then
        (assocLookup S.data expanded_key).map (fun v => (x, v))
      else none)))

/-- `set(a).issubset(set(b))` on dimension-label lists. -/
def subsetNames (a b : List String) : Bool :=
  a.all (· ∈ b)

/-- Projection of a `(dimension-label, value)` pair list onto a stack's
own dimension ordering (`Stack.__mul__`, dataviews.py lines 312-317):
keep the pairs whose label belongs to the stack, sort them by
`(dim_index, value)`, and take the values. -/
def projKey (dims : List String) (dk : List (String × Int)) : List Int :=
  (insertionSortB pairIdxLeB
    ((dk.filter (fun p => p.1 ∈ dims)).map (fun p => (dims.indexOf p.1, p.2)))).map Prod.snd

/-- One insertion of `NdMapping` (modelled from the spec, ndmapping.py not
in src/): appended in insertion order at a new key; at an existing key the
existing and new content are composed via the overlay operator (spec
section 3 lifecycle). -/
def addItemM [Mul α] (data : List (List Int × α)) (k : List Int) (v : α) :
    List (List Int × α) :=
  match assocLookup data k with
  | some w => assocReplace data k (w * v)
  | none => data ++ [(k, v)]

/-- `NdMapping.clone(items=...)` (modelled from the spec, ndmapping.py not
in src/): a fresh mapping built by inserting the given items in order. -/
def cloneData [Mul α] (items : List (List Int × α)) : List (List Int × α) :=
  items.foldl (fun acc p => addItemM acc p.1 p.2) []

/-- `Stack.__mul__` for two Stack operands (dataviews.py lines 289-326).
The value type `α` carries the element-level overlay operator `*`.  The
dimension-name subset tests pick the superset side's dimension list and
key list (`sorted(set(...))` of the union when the two sides are supersets
of each other); every surviving key is projected onto each operand's own
dimension ordering, the two lookups decide between overlaying both
entries or one entry with the other side's `empty_element`, and the items
are cloned into the result.  A projected key missing on both sides (only
possible for malformed stacks) is the Python `KeyError` of line 325.
`mulItem` is the per-key loop body (lines 310-325): project the key onto
each operand's dimension ordering (`self_key`/`other_key`), pick `new_key`
from the superset side, and overlay the entries present on each side,
substituting the absent side's `empty_element`. -/
def mulItem [Mul α] (S T : MStack α) (other_in_self : Bool)
    (dim_keys : List (String × Int)) : Except String (List Int × α) :=
  let self_key := projKey S.dims dim_keys
  let other_key := projKey T.dims dim_keys
  let new_key := if other_in_self then self_key else other_key
  match assocLookup S.data self_key, assocLookup T.data other_key with
  | some a, some b => Except.ok (new_key, a * b)
  | some a, none => Except.ok (new_key, a * T.empty_element)
  | none, some b => Except.ok (new_key, S.empty_element * b)
  | none, none => Except.error "KeyError"

def mulStack [Mul α] (S T : MStack α) : Except String (MStack α) :=
  let self_in_other := subsetNames S.dims T.dims
  let other_in_self := subsetNames T.dims S.dims
  let chosen : Except String (List (List (String × Int)) × List String) :=
    if self_in_other && other_in_self then
      .ok (insertionSortB dkLeB (dedupFirst (S.dimension_keys ++ T.dimension_keys)), S.dims)
    else if self_in_other then
      .ok (T.dimension_keys, T.dims)
    else if other_in_self then
      .ok (S.dimension_keys, S.dims)
    else
      .error "One set of keys needs to be a strict subset of the other."
  match chosen with
  | .error e => .error e
  | .ok (super_keys, dimensions) =>
    match super_keys.mapM (mulItem S T other_in_self) with
    | .error e => .error e
    | .ok items =>
      .ok { dims := dimensions, data := cloneData items, empty_element := S.empty_element }

/-- Claim-side definition (following the specification's words, for
comparison with `mulStack`): the Dimension list of `S * T` is "the
superset side's" — `S`'s whenever `T`'s names are included in `S`'s
(which is also the code's tie-break when the two sets are equal),
otherwise `T`'s. -/
def specMulDims (S T : MStack α) : List String :=
  if subsetNames T.dims S.dims then S.dims else T.dims

/-- Claim-side definition (following the specification's words): the keys
of `S * T` are "the sorted union of dimension keys restricted to the
superset side" — the keys contributed by each operand whose dimension set
is the superset, deduplicated and sorted. -/
def specMulKeys (S T : MStack α) : List (List Int) :=
  insertionSortB keyLeB (dedupFirst
    ((if subsetNames T.dims S.dims then S.keys else []) ++
     (if subsetNames S.dims T.dims then T.keys else [])))

/-- Claim-side definition (following the specification's words): the value
of `S * T` at a result key — project the key onto each operand's own
dimension ordering, overlay the two entries when both are present, and
otherwise overlay the present entry with the absent side's
`empty_element`.  (The final arm is unreachable for keys of
`specMulKeys`.) -/
def specMulValue [Mul α] (S T : MStack α) (k : List Int) : α :=
  let dims := specMulDims S T
  match assocLookup S.data (projKey S.dims (dims.zip k)),
        assocLookup T.data (projKey T.dims (dims.zip k)) with
  | some a, some b => a * b
  | some a, none => a * T.empty_element
  | none, some b => S.empty_element * b
  | none, none => S.empty_element * T.empty_element

/-- A leaf view as a heap record, for the object-identity model of
`Stack.__mul__`: stacks and overlays reference layers by index into a
store, mirroring Python object sharing, so that in-place writes (title
assignment on insertion) are observable through every reference. -/
structure LayerRec where
  title : String := ""
  label : String := ""
  xlabel : String := ""
  ylabel : String := ""
  style : String := ""
  cls : String := "Curve"
  deriving DecidableEq, Repr

/-- The heap of leaf views. -/
abbrev Store : Type := List LayerRec

/-- In-place list update (Python attribute assignment on the object at an
index); out-of-range writes are dropped. -/
def listSet : List γ → Nat → γ → List γ
  | [], _, _ => []
  | _ :: l, 0, v => v :: l
  | a :: l, n + 1, v => a :: listSet l n v

/-- A Stack of leaf views held by reference (heap index). -/
structure LStack where
  dims : List String
  data : List (List Int × Nat)
  title : String := "{label} \n {dims}"
  deriving DecidableEq, Repr

/-- `NdMapping.dimension_keys` for reference stacks (as in
`MStack.dimension_keys`). -/
def dimension_keysL (S : LStack) : List (List (String × Int)) :=
  S.data.map (fun p => S.dims.zip p.1)

/-- `Stack._set_title` on an Overlay item in the heap model (dataviews.py
lines 261-264): every member layer's `title` attribute is overwritten in
place with the stack's formatted title — including layers shared with the
operand stacks.  Skipped for the 1-dimensional `Default` placeholder. -/
def setTitleIds (tmpl : String) (dims : List String) (key : List Int)
    (store : Store) (ids : List Nat) : Store :=
  if dims.length = 1 ∧ "Default" ∈ dims then store
  else ids.foldl (fun st i =>
    match List.get? st i with
    | some r => listSet st i { r with
        title := formatTitle tmpl (dimsString dims key) r.label r.cls }
    | none => st) store

/-- Prefix a built item onto an item-building result, keeping the store. -/
def consItem (item : List Int × List Nat)
    : Store × Except String (List (List Int × List Nat)) →
      Store × Except String (List (List Int × List Nat))
  | (st, .ok its) => (st, .ok (item :: its))
  | (st, .error e) => (st, .error e)

/-- The item-building loop of `Stack.__mul__` (dataviews.py lines
309-325) in the heap model: overlaying the two stored layers shares their
references into the new overlay value, while `empty_element`
(`self._type(None)`) allocates a fresh layer each time it is evaluated. -/
def mulStoreItems (S T : LStack) (oin : Bool) :
    Store → List (List (String × Int)) → Store × Except String (List (List Int × List Nat))
  | st, [] => (st, .ok [])
  | st, dk :: rest =>
    let self_key := projKey S.dims dk
    let other_key := projKey T.dims dk
    let new_key := if oin then self_key else other_key
    match assocLookup S.data self_key, assocLookup T.data other_key with
    | some i, some j => consItem (new_key, [i, j]) (mulStoreItems S T oin st rest)
    | some i, none =>
      consItem (new_key, [i, st.length]) (mulStoreItems S T oin (st ++ [{}]) rest)
    | none, some j =>
      consItem (new_key, [st.length, j]) (mulStoreItems S T oin (st ++ [{}]) rest)
    | none, none => (st, .error "KeyError")

/-- Items built, then `clone(items=...)` inserted: each insertion runs
`_set_title` on the overlay's member layers (the title writes that
`NdMapping` insertion performs, spec section 3 "every insertion computes
and assigns a title string"). -/
def mulStoreWith (S T : LStack) (oin : Bool) (store : Store)
    (super_keys : List (List (String × Int))) (dimensions : List String) :
    Store × Except String (List String × List (List Int × List Nat)) :=
  match mulStoreItems S T oin store super_keys with
  | (st, .error e) => (st, .error e)
  | (st, .ok items) =>
    (items.foldl (fun st2 p => setTitleIds S.title dimensions p.1 st2 p.2) st,
     .ok (dimensions, items))

/-- `Stack.__mul__` for two Stacks of shared leaf references, threading
the heap: the same key algebra as `mulStack`, with the result values
being overlays of layer references and the clone's insertions retitling
those layers in place. -/
def mulStore (store : Store) (S T : LStack) :
    Store × Except String (List String × List (List Int × List Nat)) :=
  let self_in_other := subsetNames S.dims T.dims
  let other_in_self := subsetNames T.dims S.dims
  if self_in_other && other_in_self then
    mulStoreWith S T other_in_self store
      (insertionSortB dkLeB (dedupFirst (dimension_keysL S ++ dimension_keysL T)))
      S.dims
  else if self_in_other then
    mulStoreWith S T other_in_self store (dimension_keysL T) T.dims
  else if other_in_self then
    mulStoreWith S T other_in_self store (dimension_keysL S) S.dims
  else
    (store, .error "One set of keys needs to be a strict subset of the other.")

/-- All fields except the title agree: the observable state the amended
claim asserts is preserved by composition. -/
def sameButTitle (r1 r2 : LayerRec) : Prop :=
  r1.label = r2.label ∧ r1.xlabel = r2.xlabel ∧ r1.ylabel = r2.ylabel ∧
  r1.style = r2.style ∧ r1.cls = r2.cls

/-- Runtime scalar types of Table cell values (`int`, `float`, `str`,
`bool`; the numpy scalar variants collapse onto `tint`/`tfloat`). -/
inductive TType where
  | tint
  | tfloat
  | tstr
  | tbool
  deriving DecidableEq, Repr

/-- A Table cell value together with its runtime type. -/
inductive TVal where
  | vint (n : Int)
  | vfloat (q : Rat)
  | vstr (s : String)
  | vbool (b : Bool)
  deriving DecidableEq, Repr

/-- `type(v)` of a cell value. -/
def TVal.ttype : TVal → TType
  | .vint _ => .tint
  | .vfloat _ => .tfloat
  | .vstr _ => .tstr
  | .vbool _ => .tbool

/-- A `Table` view: an ordered mapping heading → value (dataviews.py lines
542-559; the string-key requirement is enforced by the embedding's type). -/
structure Table where
  data : List (String × TVal)
  deriving DecidableEq, Repr

/-- Python `set(a) == set(b)` on heading lists. -/
def sameKeySet (a b : List String) : Bool :=
  a.all (· ∈ b) && b.all (· ∈ a)

/-- `TableStack` state: the ordered mapping plus the lazily tracked
per-heading type map `_type_map` (`None` until the first Table is
inserted; a heading maps to `none` once two Tables disagreed on its value
type). -/
structure TableStack where
  dims : List String
  data : List (List Int × Table) := []
  type_map : Option (List (String × Option TType)) := none
  deriving DecidableEq, Repr

/-- One iteration of the `for k, v in data.data.items()` loop of
`TableStack._item_check` (dataviews.py lines 622-626): an unseen heading
is recorded as unknown, a heading whose value type disagrees with the
tracked entry is degraded to unknown. -/
def degradeStep (m : List (String × Option TType)) (p : String × TVal) :
    List (String × Option TType) :=
  match assocLookup m p.1 with
  | none => m ++ [(p.1, none)]
  | some cur => if some p.2.ttype ≠ cur then assocReplace m p.1 none else m

/-- `TableStack._item_check` (dataviews.py lines 613-628), embedded as a
state transformer on the stack (the `_type_map` writes persist even when
the subsequent check raises).  On first insertion `_type_map` is seeded
from the Table; a heading-set mismatch with the tracked map raises the
homogeneity (`AssertionError`) error; otherwise each heading is degraded
via `degradeStep` and the NdMapping arity validation runs (modelled from
spec section 4.1; the title assignment performed on the inserted Table
does not touch the tracked state and is not represented for Tables). -/
def TableStack.item_check (S : TableStack) (dim_vals : List Int) (t : Table) :
    TableStack × Option Err :=
  let tm0 := match S.type_map with
    | none => t.data.map (fun p => (p.1, some p.2.ttype))
    | some m => m
  if ¬ sameKeySet (tm0.map Prod.fst) (t.data.map Prod.fst) then
    ({ S with type_map := some tm0 }, some Err.typeErr)
  else
    let tm1 := t.data.foldl degradeStep tm0
    if dim_vals.length ≠ S.dims.length then
      ({ S with type_map := some tm1 }, some Err.valueErr)
    else
      ({ S with type_map := some tm1 }, none)

/-- Item assignment `stack[key] = table` on a TableStack; as in
`VStack.setItem` the mapping itself is only touched when `_item_check`
passes, but the `_type_map` mutations performed by the check persist
either way. -/
def TableStack.setItem (S : TableStack) (key : List Int) (t : Table) :
    TableStack × Option Err :=
  match S.item_check key t with
  | (S2, some e) => (S2, some e)
  | (S2, none) =>
    if (assocLookup S2.data key).isSome then
      ({ S2 with data := assocReplace S2.data key t }, none)
    else
      ({ S2 with data := S2.data ++ [(key, t)] }, none)

/-- Whether a tracked heading type is in `sample_types = [int, float] +
np.sctypes[...]` (dataviews.py line 636). -/
def sampleTypeOk : TType → Bool
  | .tint => true
  | .tfloat => true
  | _ => false

/-- The validation prelude of `TableStack.sample` (dataviews.py lines
631-646) before it delegates to the generic `Stack.sample`: every
requested heading must be tracked, must not have degraded to unknown
("Cannot sample inhomogenous type") and must be of numeric type ("Cannot
sample from type"); the first offending heading raises.  A `None`
`_type_map` (no Table ever inserted) raises where the code dereferences
`self._type_map.keys()`. -/
def TableStack.sample_check (S : TableStack) (samples : List String) : Option Err :=
  match S.type_map with
  | none => some Err.valueErr
  | some m =>
    if ¬ samples.all (fun h => h ∈ m.map Prod.fst) then some Err.keyErr
    else
      samples.foldl (fun acc h =>
        match acc with
        | some e => some e
        | none =>
          match assocLookup m h with
          | some none => some Err.typeErr
          | some (some tt) => if sampleTypeOk tt then none else some Err.typeErr
          | none => none) none

/-- A concrete curve used to exercise `sample` step 5. -/
def curveW : Leaf :=
  Leaf.curve [(0, 0), (1, 2)] none { label := "L", ylabel := "Y" }

/-- A concrete one-member overlay entry used to exercise `sample` step 5. -/
def olayW : DataOverlay :=
  { data := [Leaf.curve [(0, 3), (2, 5)] none { label := "A", ylabel := "Y" }],
    xlim := some (0, 2), ylim := some (3, 5), xlabel := "", ylabel := "Y" }

/-- A concrete output stack holding `olayW`, used to exercise `sample`
step 5 at a present key. -/
def stackW : VStack :=
  { dims := ["r"], data := [([1], SVal.olay olayW)] }

/-- Step 5 of `Stack.sample` (dataviews.py lines 480-488) for one reduced
key: with `stack_key` the reduced key with the `group_by` dimensions
dropped, a missing output key stores `DataOverlay([curve])`, while a
present key is reassigned `stack[stack_key] * curve` (the `*=`
composition).  Errors raised while building the overlay propagate and
leave the output stack unchanged. -/
def sampleStep5 (stack : VStack) (stack_key : List Int) (curve : Leaf) :
    VStack × Option Err :=
  match assocLookup stack.data stack_key with
  | none =>
    match DataOverlay.set {} [curve] with
    | (o, none) => stack.setItem stack_key (.olay o)
    | (_, some e) => (stack, some e)
  | some entry =>
    match entry.mulLeaf curve with
    | (o2, none) => stack.setItem stack_key (.olay o2)
    | (_, some e) => (stack, some e)

end DV

namespace DV

/-- C10: for every Curve with a non-`None`, nonzero `cyclic_range` `c`,
`xlim = (min of the x data, c)` regardless of the data maximum; when
`cyclic_range` is `None` or zero the upper bound is the data maximum. -/
theorem curve_xlim_cyclic (data : List (Rat × Rat)) (cr : Option Rat) (lbl : Labels)
    (lo hi : Rat)
    (hlo : listMin (data.map Prod.fst) = some lo)
    (hhi : listMax (data.map Prod.fst) = some hi) :
    (∀ c, cr = some c → c ≠ 0 → (Leaf.curve data cr lbl).xlim = some (lo, c)) ∧
    ((cr = none ∨ cr = some 0) → (Leaf.curve data cr lbl).xlim = some (lo, hi)) := by
  constructor
  · intro c hc hc0
    subst hc
    simp [Leaf.xlim, hlo, hhi, hc0]
  · rintro (h | h) <;> subst h <;> simp [Leaf.xlim, hlo, hhi]

/-- Witness for `curve_xlim_cyclic` on a concrete curve whose data maximum
(7) exceeds the cyclic range (5). -/
theorem curve_xlim_cyclic_witness :
    (Leaf.curve [(1, 2), (7, 3)] (some 5) {}).xlim = some (1, 5) ∧
    (Leaf.curve [(1, 2), (7, 3)] none {}).xlim = some (1, 7) := by
  have h := curve_xlim_cyclic [(1, 2), (7, 3)] (some 5) {} 1 7 (by decide) (by decide)
  have h2 := curve_xlim_cyclic [(1, 2), (7, 3)] none {} 1 7 (by decide) (by decide)
  exact ⟨h.1 5 rfl (by decide), h2.2 (Or.inl rfl)⟩

/-- C6: for all non-annotation leaf views `a`, `b` with defined limits and
matching `xlabel`/`ylabel`, `a * b` succeeds and the resulting overlay has
`xlim = find_minmax a.xlim b.xlim` and `ylim = find_minmax a.ylim b.ylim`. -/
theorem mulLayer_lims (a b : Leaf) (axl ayl bxl byl : Rat × Rat)
    (ha : a.isAnnot = false) (hb : b.isAnnot = false)
    (hax : a.xlim = some axl) (hay : a.ylim = some ayl)
    (hbx : b.xlim = some bxl) (hby : b.ylim = some byl)
    (hlx : b.lbls.xlabel = a.lbls.xlabel) (hly : b.lbls.ylabel = a.lbls.ylabel) :
    (mulLayer a b).2 = none ∧
    (mulLayer a b).1.xlim = some (find_minmax axl bxl) ∧
    (mulLayer a b).1.ylim = some (find_minmax ayl byl) := by
  simp only [mulLayer, DataOverlay.set, DataOverlay.add, ha, hb, hax, hay, hbx, hby,
    hlx, hly]
  simp

/-- Witness for `mulLayer_lims` on two concrete curves. -/
theorem mulLayer_lims_witness :
    (mulLayer (Leaf.curve [(0, 1), (4, 5)] none {}) (Leaf.curve [(-2, 0), (1, 9)] none {})).2
      = none ∧
    (mulLayer (Leaf.curve [(0, 1), (4, 5)] none {}) (Leaf.curve [(-2, 0), (1, 9)] none {})).1.xlim
      = some (find_minmax (0, 4) (-2, 1)) ∧
    (mulLayer (Leaf.curve [(0, 1), (4, 5)] none {}) (Leaf.curve [(-2, 0), (1, 9)] none {})).1.ylim
      = some (find_minmax (1, 5) (0, 9)) :=
  mulLayer_lims _ _ (0, 4) (1, 5) (-2, 1) (0, 9) rfl rfl (by decide) (by decide)
    (by decide) (by decide) rfl rfl

/-- C5 counterexample: adding a leaf with a different `ylabel` to a
non-empty overlay does fail, but the overlay's `xlim` has already been
rewritten by the offending addition when the error is raised — refuting
the claim that the failure occurs before any bounding-box mutation. -/
theorem overlay_label_mutates_cex :
    (((DataOverlay.set {} [Leaf.curve [(0, 0), (1, 1)] none { ylabel := "y1" }]).1.add
        (Leaf.curve [(-5, 2), (3, 4)] none { ylabel := "y2" })).2 = some Err.labelErr) ∧
    ((DataOverlay.set {} [Leaf.curve [(0, 0), (1, 1)] none { ylabel := "y1" }]).1.add
        (Leaf.curve [(-5, 2), (3, 4)] none { ylabel := "y2" })).1.xlim ≠
      (DataOverlay.set {} [Leaf.curve [(0, 0), (1, 1)] none { ylabel := "y1" }]).1.xlim := by
  decide

/-- C5 amended: overlaying a leaf whose `xlabel` or `ylabel` differs from a
non-empty overlay's always fails, but only *after* the overlay's
`xlim`/`ylim` have been updated with the offending layer's limits via
`find_minmax`; the member list itself is left unchanged. -/
theorem overlay_label_mismatch (o : DataOverlay) (layer : Leaf) (oxl oyl lxl lyl : Rat × Rat)
    (hne : o.data.length ≠ 0) (hl : layer.isAnnot = false)
    (hox : o.xlim = some oxl) (hoy : o.ylim = some oyl)
    (hlx : layer.xlim = some lxl) (hly : layer.ylim = some lyl)
    (hmis : layer.lbls.xlabel ≠ o.xlabel ∨ layer.lbls.ylabel ≠ o.ylabel) :
    (o.add layer).2 = some Err.labelErr ∧
    (o.add layer).1.xlim = some (find_minmax oxl lxl) ∧
    (o.add layer).1.ylim = some (find_minmax oyl lyl) ∧
    (o.add layer).1.data = o.data := by
  simp only [DataOverlay.add, hl, hne, hox, hoy, hlx, hly]
  simp [hmis]

/-- Witness for `overlay_label_mismatch` on a concrete overlay and curve. -/
theorem overlay_label_mismatch_witness :
    (({ data := [Leaf.curve [(0, 0), (1, 1)] none { ylabel := "y1" }],
        xlim := some (0, 1), ylim := some (0, 1),
        ylabel := "y1" : DataOverlay }).add
      (Leaf.curve [(-5, 2), (3, 4)] none { ylabel := "y2" })).2 = some Err.labelErr ∧
    (({ data := [Leaf.curve [(0, 0), (1, 1)] none { ylabel := "y1" }],
        xlim := some (0, 1), ylim := some (0, 1),
        ylabel := "y1" : DataOverlay }).add
      (Leaf.curve [(-5, 2), (3, 4)] none { ylabel := "y2" })).1.xlim
        = some (find_minmax (0, 1) (-5, 3)) ∧
    (({ data := [Leaf.curve [(0, 0), (1, 1)] none { ylabel := "y1" }],
        xlim := some (0, 1), ylim := some (0, 1),
        ylabel := "y1" : DataOverlay }).add
      (Leaf.curve [(-5, 2), (3, 4)] none { ylabel := "y2" })).1.ylim
        = some (find_minmax (0, 1) (2, 4)) ∧
    (({ data := [Leaf.curve [(0, 0), (1, 1)] none { ylabel := "y1" }],
        xlim := some (0, 1), ylim := some (0, 1),
        ylabel := "y1" : DataOverlay }).add
      (Leaf.curve [(-5, 2), (3, 4)] none { ylabel := "y2" })).1.data
        = [Leaf.curve [(0, 0), (1, 1)] none { ylabel := "y1" }] := by
  have h := overlay_label_mismatch
    { data := [Leaf.curve [(0, 0), (1, 1)] none { ylabel := "y1" }],
      xlim := some (0, 1), ylim := some (0, 1), ylabel := "y1" }
    (Leaf.curve [(-5, 2), (3, 4)] none { ylabel := "y2" })
    (0, 1) (0, 1) (-5, 3) (2, 4)
    (by decide) rfl rfl rfl (by decide) (by decide) (by decide)
  exact h

theorem assocLookup_append_self [DecidableEq κ] {l : List (κ × β)} {k : κ} (v : β)
    (h : assocLookup l k = none) : assocLookup (l ++ [(k, v)]) k = some v := by
  induction l with
  | nil => simp [assocLookup]
  | cons p l ih =>
    simp only [assocLookup, List.cons_append] at h ⊢
    by_cases hp : p.1 = k
    · simp [hp] at h
    · simpa [hp] using ih (by simpa [hp] using h)

theorem assocLookup_replace_self [DecidableEq κ] {l : List (κ × β)} {k : κ} {w : β} (v : β)
    (h : assocLookup l k = some w) : assocLookup (assocReplace l k v) k = some v := by
  induction l with
  | nil => simp [assocLookup] at h
  | cons p l ih =>
    simp only [assocLookup, assocReplace, List.map_cons] at h ⊢
    by_cases hp : p.1 = k
    · simp [hp, assocLookup]
    · simpa [hp, assocLookup] using ih (by simpa [hp] using h)

/-- C3: in a Stack that already holds at least one item (content type not
yet cached, so it resolves to the class of the first inserted value),
assigning a value of a different runtime class fails with the
homogeneity (TypeError-kind, raised as `AssertionError`) error for every
key, and the mapping is left unchanged. -/
theorem stack_homogeneity (S : VStack) (v0 : SVal)
    (hcache : S.type_cache = none) (htop : S.top = some v0)
    (v : SVal) (hv : v.cls ≠ v0.cls) (key : List Int) :
    (S.setItem key v).2 = some Err.typeErr ∧ (S.setItem key v).1 = S := by
  have htype : S.typeF = some v0.cls := by
    simp [VStack.typeF, hcache, htop]
  have hcheck : S.item_check key v = ((S.item_check key v).1, some Err.typeErr) := by
    unfold VStack.item_check
    rw [if_pos ⟨by simp [htype], by simp [htype]; exact fun h => hv h.symm⟩]
  unfold VStack.setItem
  rw [hcheck]
  exact ⟨rfl, rfl⟩

/-- Witness for `stack_homogeneity`: a stack holding a Curve rejects a
Histogram at an arity-mismatching key. -/
theorem stack_homogeneity_witness :
    (VStack.setItem { dims := ["a"], data := [([0], SVal.leaf (Leaf.curve [(0, 0)] none {}))] }
        [1, 2] (SVal.leaf (Leaf.histogram [1] [0, 1] none {}))).2 = some Err.typeErr ∧
    (VStack.setItem { dims := ["a"], data := [([0], SVal.leaf (Leaf.curve [(0, 0)] none {}))] }
        [1, 2] (SVal.leaf (Leaf.histogram [1] [0, 1] none {}))).1 =
      { dims := ["a"], data := [([0], SVal.leaf (Leaf.curve [(0, 0)] none {}))] } :=
  stack_homogeneity { dims := ["a"], data := [([0], SVal.leaf (Leaf.curve [(0, 0)] none {}))] }
    (SVal.leaf (Leaf.curve [(0, 0)] none {})) rfl rfl
    (SVal.leaf (Leaf.histogram [1] [0, 1] none {})) (by decide) [1, 2]

/-- C4 counterexample: in step 5 of `sample`, storing at a fresh output
key does *not* store the newly built Curve directly — the stored entry's
runtime class is Overlay (a `DataOverlay([curve])`), while the built
Curve's class is Curve. -/
theorem sample_step5_cex :
    (assocLookup (sampleStep5 { dims := ["r"] } [1]
        (Leaf.curve [(0, 0), (1, 2)] none { label := "L", ylabel := "Y" })).1.data [1]).map
        SVal.cls = some VClass.overlayC ∧
    (Leaf.curve [(0, 0), (1, 2)] none { label := "L", ylabel := "Y" }).cls = VClass.curveC ∧
    VClass.overlayC ≠ VClass.curveC := by
  decide

theorem Leaf.withTitle_withTitle (l : Leaf) (s t : String) :
    (l.withTitle s).withTitle t = l.withTitle t := by
  cases l <;> rfl

theorem DataOverlay.set_app (layers : List Leaf) (o : DataOverlay)
    (hne : o.data ≠ []) (hx : o.xlim.isSome) (hy : o.ylim.isSome)
    (hl : ∀ l ∈ layers, l.isAnnot = false ∧ l.xlim.isSome ∧ l.ylim.isSome ∧
      l.lbls.xlabel = o.xlabel ∧ l.lbls.ylabel = o.ylabel) :
    (o.set layers).2 = none ∧ (o.set layers).1.data = o.data ++ layers ∧
    (o.set layers).1.xlim.isSome ∧ (o.set layers).1.ylim.isSome ∧
    (o.set layers).1.style = o.style := by
  induction layers generalizing o with
  | nil => simp [DataOverlay.set, hx, hy]
  | cons a rest ih =>
    obtain ⟨ha1, ha2, ha3, ha4, ha5⟩ := hl a (by simp)
    obtain ⟨oxl, hoxl⟩ := Option.isSome_iff_exists.mp hx
    obtain ⟨oyl, hoyl⟩ := Option.isSome_iff_exists.mp hy
    obtain ⟨axl, haxl⟩ := Option.isSome_iff_exists.mp ha2
    obtain ⟨ayl, hayl⟩ := Option.isSome_iff_exists.mp ha3
    have hadd : o.add a =
        ({ o with xlim := some (find_minmax oxl axl), ylim := some (find_minmax oyl ayl),
                  data := o.data ++ [a] }, none) := by
      unfold DataOverlay.add
      simp [ha1, hne, hoxl, hoyl, haxl, hayl, ha4, ha5]
    have hstep := ih { o with xlim := some (find_minmax oxl axl),
                              ylim := some (find_minmax oyl ayl), data := o.data ++ [a] }
      (by simp) (by simp) (by simp)
      (fun l hlmem => by simpa using hl l (by simp [hlmem]))
    unfold DataOverlay.set
    rw [hadd]
    refine ⟨hstep.1, ?_, hstep.2.2.1, hstep.2.2.2.1, by rw [hstep.2.2.2.2]⟩
    rw [hstep.2.1]
    simp

theorem setTitle_olay_data (tmpl : String) (dims : List String) (key : List Int)
    (o : DataOverlay) :
    ∃ o2, setTitleSVal tmpl dims key (SVal.olay o) = SVal.olay o2 ∧
      o2.data.map (Leaf.withTitle "") = o.data.map (Leaf.withTitle "") ∧
      o2.data.length = o.data.length := by
  unfold setTitleSVal
  by_cases h : dims.length = 1 ∧ "Default" ∈ dims
  · exact ⟨o, by simp [h], rfl, rfl⟩
  · refine ⟨{ o with data := o.data.map (fun l =>
        l.withTitle (formatTitle tmpl (dimsString dims key) l.lbls.label l.clsName)) },
      by simp [h], ?_, by simp⟩
    rw [List.map_map]
    exact List.map_congr_left (fun l _ => Leaf.withTitle_withTitle l _ _)

/-- C4 amended: in step 5 of `sample`, after dropping the `group_by`
dimensions to obtain the output key: a missing key stores a singleton
`DataOverlay` wrapping the newly built Curve (retitled by insertion) as
the entry, and a present key has the Curve composed into the existing
Overlay entry via `*=`, storing an Overlay whose members (up to the
retitling applied on insertion) are the existing members followed by the
Curve — a multi-member Overlay. -/
theorem sample_step5_entry (S : VStack) (key : List Int) (c : Leaf)
    (hc : c.isAnnot = false) (hstyle : S.styleF = none ∨ S.styleF = some "")
    (harity : key.length = S.dims.length) :
    ((assocLookup S.data key = none) → ∀ xl yl, c.xlim = some xl → c.ylim = some yl →
      (S.typeF = none ∨ S.typeF = some VClass.overlayC) →
      (sampleStep5 S key c).2 = none ∧
      assocLookup (sampleStep5 S key c).1.data key =
        some (setTitleSVal S.title S.dims key (SVal.olay
          { data := [c], xlim := some xl, ylim := some yl,
            xlabel := c.lbls.xlabel, ylabel := c.lbls.ylabel }))) ∧
    (∀ o m ms, assocLookup S.data key = some (SVal.olay o) → o.data = m :: ms →
      S.typeF = some VClass.overlayC →
      (∀ l, l ∈ o.data ++ [c] → l.isAnnot = false ∧ l.xlim.isSome ∧ l.ylim.isSome ∧
        l.lbls.xlabel = m.lbls.xlabel ∧ l.lbls.ylabel = m.lbls.ylabel) →
      ∃ o2, (sampleStep5 S key c).2 = none ∧
        assocLookup (sampleStep5 S key c).1.data key = some (SVal.olay o2) ∧
        o2.data.map (Leaf.withTitle "") = (o.data ++ [c]).map (Leaf.withTitle "") ∧
        2 ≤ o2.data.length) := by
  constructor
  · intro habs xl yl hxl hyl htype
    have hset : DataOverlay.set {} [c] =
        ({ data := [c], xlim := some xl, ylim := some yl,
           xlabel := c.lbls.xlabel, ylabel := c.lbls.ylabel }, none) := by
      unfold DataOverlay.set DataOverlay.set DataOverlay.add
      simp [hc, hxl, hyl]
    have hcheck : S.item_check key (SVal.olay
        { data := [c], xlim := some xl, ylim := some yl,
          xlabel := c.lbls.xlabel, ylabel := c.lbls.ylabel }) =
        (setTitleSVal S.title S.dims key (SVal.olay
          { data := [c], xlim := some xl, ylim := some yl,
            xlabel := c.lbls.xlabel, ylabel := c.lbls.ylabel }), none) := by
      unfold VStack.item_check
      rcases hstyle with hs | hs <;> rcases htype with h | h <;>
        simp [hs, h, harity, SVal.cls, SVal.style]
    have hrun : sampleStep5 S key c =
        ({ S with data := S.data ++ [(key, setTitleSVal S.title S.dims key (SVal.olay
          { data := [c], xlim := some xl, ylim := some yl,
            xlabel := c.lbls.xlabel, ylabel := c.lbls.ylabel }))] }, none) := by
      unfold sampleStep5
      simp only [habs, hset]
      unfold VStack.setItem
      simp only [hcheck]
      rw [if_neg (by simp [habs])]
    exact ⟨by rw [hrun], by rw [hrun]; exact assocLookup_append_self _ habs⟩
  · intro o m ms hpres hdata htype hl
    have hm := hl m (by simp [hdata])
    obtain ⟨mxl, hmxl⟩ := Option.isSome_iff_exists.mp hm.2.1
    obtain ⟨myl, hmyl⟩ := Option.isSome_iff_exists.mp hm.2.2.1
    have haddm : (DataOverlay.add {} m) =
        ({ data := [m], xlim := some mxl, ylim := some myl,
           xlabel := m.lbls.xlabel, ylabel := m.lbls.ylabel }, none) := by
      unfold DataOverlay.add
      simp [hm.1, hmxl, hmyl]
    have hrest : ∀ l, l ∈ ms ++ [c] → l.isAnnot = false ∧ l.xlim.isSome ∧ l.ylim.isSome ∧
        l.lbls.xlabel = m.lbls.xlabel ∧ l.lbls.ylabel = m.lbls.ylabel := by
      intro l hlm
      apply hl l
      rw [hdata]
      rcases List.mem_append.mp hlm with h | h
      · exact List.mem_append.mpr (Or.inl (List.mem_cons_of_mem m h))
      · exact List.mem_append.mpr (Or.inr h)
    have hsetapp := DataOverlay.set_app (ms ++ [c])
      { data := [m], xlim := some mxl, ylim := some myl,
        xlabel := m.lbls.xlabel, ylabel := m.lbls.ylabel }
      (by simp) (by simp) (by simp) (by simpa using hrest)
    have hmul : ∃ o1, SVal.mulLeaf (SVal.olay o) c = (o1, none) ∧
        o1.data = o.data ++ [c] ∧ o1.style = "" := by
      refine ⟨(DataOverlay.set {} (o.data ++ [c])).1, ?_, ?_, ?_⟩
      · unfold SVal.mulLeaf mulOverlayLayer
        have : (DataOverlay.set {} (o.data ++ [c])).2 = none := by
          rw [hdata]
          simp only [List.cons_append]
          unfold DataOverlay.set
          rw [haddm]
          exact hsetapp.1
        exact Prod.ext rfl this
      · rw [hdata]
        simp only [List.cons_append]
        unfold DataOverlay.set
        rw [haddm]
        rw [hsetapp.2.1]
        simp [hdata]
      · rw [hdata]
        simp only [List.cons_append]
        unfold DataOverlay.set
        rw [haddm]
        exact hsetapp.2.2.2.2
    obtain ⟨o1, hmuleq, ho1, ho1style⟩ := hmul
    obtain ⟨o2, ho2eq, ho2map, ho2len⟩ := setTitle_olay_data S.title S.dims key o1
    have hcheck : S.item_check key (SVal.olay o1) =
        (setTitleSVal S.title S.dims key (SVal.olay o1), none) := by
      unfold VStack.item_check
      rcases hstyle with hs | hs <;>
        simp [hs, htype, harity, SVal.cls, SVal.style, ho1style]
    have hrun : sampleStep5 S key c =
        ({ S with data := assocReplace S.data key (setTitleSVal S.title S.dims key (SVal.olay o1)) }, none) := by
      unfold sampleStep5
      simp only [hpres, hmuleq]
      unfold VStack.setItem
      simp only [hcheck]
      rw [if_pos (by simp [hpres])]
    refine ⟨o2, by rw [hrun], ?_, ?_, ?_⟩
    · rw [hrun, ho2eq]
      exact assocLookup_replace_self _ hpres
    · rw [ho2map, ho1]
    · rw [ho2len, ho1, hdata]
      simp

/-- Witness for `sample_step5_entry`: both the fresh-key branch (on an
empty output stack) and the present-key branch (on `stackW`). -/
theorem sample_step5_entry_witness :
    ((sampleStep5 { dims := ["r"] } [1] curveW).2 = none ∧
      assocLookup (sampleStep5 { dims := ["r"] } [1] curveW).1.data [1] =
        some (setTitleSVal (VStack.title { dims := ["r"] }) ["r"] [1] (SVal.olay
          { data := [curveW], xlim := some (0, 1), ylim := some (0, 2),
            xlabel := curveW.lbls.xlabel, ylabel := curveW.lbls.ylabel }))) ∧
    (∃ o2, (sampleStep5 stackW [1] curveW).2 = none ∧
      assocLookup (sampleStep5 stackW [1] curveW).1.data [1] = some (SVal.olay o2) ∧
      o2.data.map (Leaf.withTitle "") = (olayW.data ++ [curveW]).map (Leaf.withTitle "") ∧
      2 ≤ o2.data.length) := by
  constructor
  · exact (sample_step5_entry { dims := ["r"] } [1] curveW (by decide) (Or.inl rfl) rfl).1
      rfl (0, 1) (0, 2) (by decide) (by decide) (Or.inl rfl)
  · exact (sample_step5_entry stackW [1] curveW (by decide) (Or.inr rfl) rfl).2
      olayW (Leaf.curve [(0, 3), (2, 5)] none { label := "A", ylabel := "Y" }) [] rfl rfl rfl
      (by decide)

theorem assocLookup_append_left [DecidableEq κ] {l : List (κ × β)} {k : κ} {v : β}
    (l2 : List (κ × β)) (h : assocLookup l k = some v) :
    assocLookup (l ++ l2) k = some v := by
  induction l with
  | nil => simp [assocLookup] at h
  | cons p l ih =>
    simp only [assocLookup, List.cons_append] at h ⊢
    by_cases hp : p.1 = k
    · simpa [hp] using h
    · simpa [hp] using ih (by simpa [hp] using h)

theorem assocLookup_replace_ne [DecidableEq κ] {l : List (κ × β)} {k k2 : κ} (v : β)
    (hne : k2 ≠ k) : assocLookup (assocReplace l k2 v) k = assocLookup l k := by
  induction l with
  | nil => simp [assocReplace, assocLookup]
  | cons p l ih =>
    unfold assocReplace at ih ⊢
    simp only [List.map_cons]
    by_cases hp : p.1 = k2
    · rw [if_pos hp]
      simp only [assocLookup]
      rw [if_neg hne, if_neg (fun hc => hne (hp ▸ hc))]
      exact ih
    · rw [if_neg hp]
      simp only [assocLookup]
      by_cases hk : p.1 = k
      · rw [if_pos hk, if_pos hk]
      · rw [if_neg hk, if_neg hk]
        exact ih

theorem degradeStep_absent (m : List (String × Option TType)) (p : String × TVal)
    (h : assocLookup m p.1 = none) : degradeStep m p = m ++ [(p.1, none)] := by
  unfold degradeStep
  rw [h]

theorem degradeStep_found (m : List (String × Option TType)) (p : String × TVal)
    (cur : Option TType) (h : assocLookup m p.1 = some cur) :
    degradeStep m p = if some p.2.ttype ≠ cur then assocReplace m p.1 none else m := by
  unfold degradeStep
  rw [h]

theorem mem_keys_of_assocLookup [DecidableEq κ] {l : List (κ × β)} {k : κ} {v : β}
    (h : assocLookup l k = some v) : k ∈ l.map Prod.fst := by
  induction l with
  | nil => simp [assocLookup] at h
  | cons p l ih =>
    simp only [assocLookup] at h
    by_cases hp : p.1 = k
    · simp [hp]
    · simp only [List.map_cons, List.mem_cons]
      exact Or.inr (ih (by simpa [hp] using h))

theorem degrade_foldl_none (pairs : List (String × TVal))
    (m : List (String × Option TType)) (h : String)
    (hm : assocLookup m h = some none) :
    assocLookup (pairs.foldl degradeStep m) h = some none := by
  induction pairs generalizing m with
  | nil => simpa using hm
  | cons p rest ih =>
    simp only [List.foldl_cons]
    apply ih
    by_cases hp : p.1 = h
    · subst hp
      rw [degradeStep_found _ _ _ hm, if_pos (by simp)]
      exact assocLookup_replace_self _ hm
    · cases hcase : assocLookup m p.1 with
      | none =>
        rw [degradeStep_absent _ _ hcase]
        exact assocLookup_append_left _ hm
      | some cur =>
        rw [degradeStep_found _ _ _ hcase]
        by_cases hd : some p.2.ttype ≠ cur
        · rw [if_pos hd, assocLookup_replace_ne _ hp]
          exact hm
        · rw [if_neg hd]
          exact hm

theorem degrade_reaches (pairs : List (String × TVal))
    (m : List (String × Option TType)) (h : String) (v : TVal) (cur0 : Option TType)
    (hmem : (h, v) ∈ pairs)
    (hP : (assocLookup m h = some cur0 ∧ some v.ttype ≠ cur0) ∨ assocLookup m h = some none) :
    assocLookup (pairs.foldl degradeStep m) h = some none := by
  induction pairs generalizing m with
  | nil => simp at hmem
  | cons p rest ih =>
    simp only [List.foldl_cons]
    rcases List.mem_cons.mp hmem with hhead | htail
    · subst hhead
      rcases hP with ⟨hcur, hne⟩ | hnone
      · apply degrade_foldl_none
        rw [degradeStep_found _ _ _ hcur, if_pos hne]
        exact assocLookup_replace_self _ hcur
      · apply degrade_foldl_none
        rw [degradeStep_found _ _ _ hnone, if_pos (by simp)]
        exact assocLookup_replace_self _ hnone
    · apply ih _ htail
      by_cases hp : p.1 = h
      · subst hp
        rcases hP with ⟨hcur, hne⟩ | hnone
        · rw [degradeStep_found _ _ _ hcur]
          by_cases hd : some p.2.ttype ≠ cur0
          · rw [if_pos hd]
            exact Or.inr (assocLookup_replace_self _ hcur)
          · rw [if_neg hd]
            exact Or.inl ⟨hcur, hne⟩
        · rw [degradeStep_found _ _ _ hnone, if_pos (by simp)]
          exact Or.inr (assocLookup_replace_self _ hnone)
      · have hpres : assocLookup (degradeStep m p) h = assocLookup m h := by
          cases hcase : assocLookup m p.1 with
          | none =>
            rw [degradeStep_absent _ _ hcase]
            rcases hP with ⟨hcur, _⟩ | hnone
            · rw [hcur]
              exact assocLookup_append_left _ hcur
            · rw [hnone]
              exact assocLookup_append_left _ hnone
          | some cur =>
            rw [degradeStep_found _ _ _ hcase]
            by_cases hd : some p.2.ttype ≠ cur
            · rw [if_pos hd]
              exact assocLookup_replace_ne _ hp
            · rw [if_neg hd]
        rcases hP with ⟨hcur, hne⟩ | hnone
        · exact Or.inl ⟨hpres.trans hcur, hne⟩
        · exact Or.inr (hpres.trans hnone)

/-- C9: on a TableStack whose tracked heading map is already fixed (at
least one Table inserted): (a) inserting a Table whose heading set differs
from the tracked set fails with the homogeneity error and leaves the
mapping untouched; (b) inserting a Table with the same heading set whose
value type disagrees on some tracked heading succeeds, that heading's
tracked type degrades to unknown, and subsequently sampling that heading
fails ("Cannot sample inhomogenous type"). -/
theorem tablestack_type_tracking (S : TableStack) (m : List (String × Option TType))
    (hm : S.type_map = some m) :
    (∀ (t : Table) (key : List Int),
      ¬ sameKeySet (m.map Prod.fst) (t.data.map Prod.fst) →
      (S.setItem key t).2 = some Err.typeErr ∧ (S.setItem key t).1.data = S.data) ∧
    (∀ (t : Table) (key : List Int) (h : String) (v : TVal) (cur : Option TType),
      sameKeySet (m.map Prod.fst) (t.data.map Prod.fst) →
      key.length = S.dims.length →
      (h, v) ∈ t.data → assocLookup m h = some cur → some v.ttype ≠ cur →
      (S.setItem key t).2 = none ∧
      (S.setItem key t).1.type_map = some (t.data.foldl degradeStep m) ∧
      assocLookup (t.data.foldl degradeStep m) h = some none ∧
      (S.setItem key t).1.sample_check [h] = some Err.typeErr) := by
  constructor
  · intro t key hset
    have hcheck : S.item_check key t = ({ S with type_map := some m }, some Err.typeErr) := by
      unfold TableStack.item_check
      simp only [hm]
      rw [if_pos (by simpa using hset)]
    unfold TableStack.setItem
    rw [hcheck]
    exact ⟨rfl, rfl⟩
  · intro t key h v cur hset harity hmem hcur hne
    have hdeg : assocLookup (t.data.foldl degradeStep m) h = some none := by
      apply degrade_reaches t.data m h v cur hmem
      cases cur with
      | none => exact Or.inr hcur
      | some tt => exact Or.inl ⟨hcur, hne⟩
    have hcheck : S.item_check key t =
        ({ S with type_map := some (t.data.foldl degradeStep m) }, none) := by
      unfold TableStack.item_check
      simp only [hm]
      rw [if_neg (by simpa using hset), if_neg (by simp [harity])]
    have hrun : (S.setItem key t).2 = none ∧
        (S.setItem key t).1.type_map = some (t.data.foldl degradeStep m) := by
      unfold TableStack.setItem
      simp only [hcheck]
      by_cases hpres : (assocLookup S.data key).isSome
      · rw [if_pos hpres]
        exact ⟨rfl, rfl⟩
      · rw [if_neg hpres]
        exact ⟨rfl, rfl⟩
    refine ⟨hrun.1, hrun.2, hdeg, ?_⟩
    have hmemk : h ∈ (t.data.foldl degradeStep m).map Prod.fst :=
      mem_keys_of_assocLookup hdeg
    unfold TableStack.sample_check
    simp only [hrun.2]
    simp [hmemk, hdeg]

/-- Witness for `tablestack_type_tracking`: a TableStack tracking
`{"a": int, "b": str}` rejects a Table with headings `{"a"}` and, on
inserting a Table mapping `"a"` to a float, degrades `"a"` to unknown so
that sampling `"a"` fails. -/
theorem tablestack_type_tracking_witness :
    ((TableStack.setItem
        { dims := ["t"], type_map := some [("a", some TType.tint), ("b", some TType.tstr)] }
        [0] { data := [("a", TVal.vint 1)] }).2 = some Err.typeErr ∧
      (TableStack.setItem
        { dims := ["t"], type_map := some [("a", some TType.tint), ("b", some TType.tstr)] }
        [0] { data := [("a", TVal.vint 1)] }).1.data = []) ∧
    ((TableStack.setItem
        { dims := ["t"], type_map := some [("a", some TType.tint), ("b", some TType.tstr)] }
        [0] { data := [("a", TVal.vfloat 1), ("b", TVal.vstr "s")] }).2 = none ∧
      (TableStack.setItem
        { dims := ["t"], type_map := some [("a", some TType.tint), ("b", some TType.tstr)] }
        [0] { data := [("a", TVal.vfloat 1), ("b", TVal.vstr "s")] }).1.type_map =
        some ([("a", TVal.vfloat 1), ("b", TVal.vstr "s")].foldl degradeStep
          [("a", some TType.tint), ("b", some TType.tstr)]) ∧
      assocLookup ([("a", TVal.vfloat 1), ("b", TVal.vstr "s")].foldl degradeStep
          [("a", some TType.tint), ("b", some TType.tstr)]) "a" = some none ∧
      (TableStack.setItem
        { dims := ["t"], type_map := some [("a", some TType.tint), ("b", some TType.tstr)] }
        [0] { data := [("a", TVal.vfloat 1), ("b", TVal.vstr "s")] }).1.sample_check ["a"] =
        some Err.typeErr) := by
  constructor
  · exact (tablestack_type_tracking
      { dims := ["t"], type_map := some [("a", some TType.tint), ("b", some TType.tstr)] }
      [("a", some TType.tint), ("b", some TType.tstr)] rfl).1
      { data := [("a", TVal.vint 1)] } [0] (by decide)
  · exact (tablestack_type_tracking
      { dims := ["t"], type_map := some [("a", some TType.tint), ("b", some TType.tstr)] }
      [("a", some TType.tint), ("b", some TType.tstr)] rfl).2
      { data := [("a", TVal.vfloat 1), ("b", TVal.vstr "s")] } [0] "a" (TVal.vfloat 1)
      (some TType.tint) (by decide) rfl (by decide) rfl (by decide)

theorem dedupFirst_mem [DecidableEq γ] {l : List γ} {a : γ} :
    a ∈ dedupFirst l ↔ a ∈ l := by
  induction l using dedupFirst.induct with
  | case1 => simp [dedupFirst]
  | case2 b l ih =>
    unfold dedupFirst
    simp only [List.mem_cons, ih, List.mem_filter, decide_eq_true_eq]
    constructor
    · rintro (h | ⟨h, _⟩)
      · exact Or.inl h
      · exact Or.inr h
    · rintro (h | h)
      · exact Or.inl h
      · by_cases hb : a = b
        · exact Or.inl hb
        · exact Or.inr ⟨h, hb⟩

theorem dedupFirst_nodup [DecidableEq γ] (l : List γ) : (dedupFirst l).Nodup := by
  induction l using dedupFirst.induct with
  | case1 => simp [dedupFirst]
  | case2 b l ih =>
    unfold dedupFirst
    refine List.nodup_cons.mpr ⟨?_, ih⟩
    intro hmem
    have := dedupFirst_mem.mp hmem
    simp [List.mem_filter] at this

theorem assocLookup_map_self_mem [DecidableEq κ] (f : κ → δ) {l : List κ} {a : κ}
    (h : a ∈ l) : assocLookup (l.map (fun x => (x, f x))) a = some (f a) := by
  induction l with
  | nil => simp at h
  | cons b l ih =>
    simp only [List.map_cons, assocLookup]
    by_cases hb : b = a
    · simp [hb]
    · rw [if_neg hb]
      rcases List.mem_cons.mp h with hc | hc
      · exact absurd hc.symm hb
      · exact ih hc

theorem assocLookup_map_self_not_mem [DecidableEq κ] (f : κ → δ) {l : List κ} {a : κ}
    (h : a ∉ l) : assocLookup (l.map (fun x => (x, f x))) a = none := by
  induction l with
  | nil => rfl
  | cons b l ih =>
    simp only [List.map_cons, assocLookup]
    rw [if_neg (fun hc => h (by rw [← hc]; exact List.mem_cons_self b l))]
    exact ih (fun hc => h (List.mem_cons_of_mem b hc))

theorem assocLookup_filterMap_not_mem [DecidableEq κ] {g : κ → Option (κ × δ)}
    (hg : ∀ x p, g x = some p → p.1 = x) {xs : List κ} {a : κ} (h : a ∉ xs) :
    assocLookup (xs.filterMap g) a = none := by
  induction xs with
  | nil => rfl
  | cons y xs ih =>
    have hy : y ≠ a := fun hc => h (hc ▸ List.mem_cons_self y xs)
    have hrest : a ∉ xs := fun hc => h (List.mem_cons_of_mem y hc)
    simp only [List.filterMap_cons]
    cases hgy : g y with
    | none => exact ih hrest
    | some p =>
      simp only [assocLookup]
      rw [if_neg (by rw [hg y p hgy]; exact hy)]
      exact ih hrest

theorem assocLookup_filterMap_mem [DecidableEq κ] {g : κ → Option (κ × δ)}
    (hg : ∀ x p, g x = some p → p.1 = x) {xs : List κ} {a : κ}
    (hnd : xs.Nodup) (h : a ∈ xs) :
    assocLookup (xs.filterMap g) a = (g a).map Prod.snd := by
  induction xs with
  | nil => simp at h
  | cons y xs ih =>
    obtain ⟨hy, hndr⟩ := List.nodup_cons.mp hnd
    simp only [List.filterMap_cons]
    by_cases hya : y = a
    · subst hya
      cases hgy : g y with
      | none =>
        simp only [Option.map_none]
        exact assocLookup_filterMap_not_mem hg hy
      | some p =>
        have hp1 : p.1 = y := hg y p hgy
        simp [assocLookup, hp1]
    · have hrest : a ∈ xs := by
        rcases List.mem_cons.mp h with hc | hc
        · exact absurd hc.symm hya
        · exact hc
      cases hgy : g y with
      | none => exact ih hndr hrest
      | some p =>
        simp only [assocLookup]
        rw [if_neg (by rw [hg y p hgy]; exact hya)]
        exact ih hndr hrest

theorem assocLookup_eq_none_iff [DecidableEq κ] {l : List (κ × δ)} {k : κ} :
    assocLookup l k = none ↔ k ∉ l.map Prod.fst := by
  induction l with
  | nil => simp [assocLookup]
  | cons p l ih =>
    simp only [assocLookup, List.map_cons, List.mem_cons]
    by_cases hp : p.1 = k
    · simp [hp]
    · simp only [if_neg hp, ih]
      constructor
      · intro h hmem
        rcases hmem with hc | hc
        · exact hp hc.symm
        · exact h hc
      · intro h hc
        exact h (Or.inr hc)

theorem assocLookup_of_mem_nodup [DecidableEq κ] {l : List (κ × δ)} {k : κ} {v : δ}
    (hnd : (l.map Prod.fst).Nodup) (h : (k, v) ∈ l) : assocLookup l k = some v := by
  induction l with
  | nil => simp at h
  | cons p l ih =>
    obtain ⟨hp, hndr⟩ := List.nodup_cons.mp hnd
    simp only [assocLookup]
    rcases List.mem_cons.mp h with hc | hc
    · rw [if_pos (by rw [← hc])]
      rw [← hc]
    · rw [if_neg ?_]
      · exact ih hndr hc
      · intro he
        exact hp (he ▸ List.mem_map_of_mem Prod.fst hc)

theorem insertAt_length (i : Nat) (x : Int) (k : List Int) :
    (insertAt i x k).length = k.length + 1 := by
  simp [insertAt]
  omega

theorem insertAt_succ_cons (i : Nat) (x a : Int) (k : List Int) :
    insertAt (i + 1) x (a :: k) = a :: insertAt i x k := by
  simp [insertAt]

theorem removeAt_succ_cons (i : Nat) (a : Int) (k : List Int) :
    removeAt (i + 1) (a :: k) = a :: removeAt i k := by
  simp [removeAt]

theorem removeAt_insertAt (i : Nat) (x : Int) (k : List Int) (h : i ≤ k.length) :
    removeAt i (insertAt i x k) = k := by
  induction i generalizing k with
  | zero => simp [insertAt, removeAt]
  | succ i ih =>
    cases k with
    | nil => simp at h
    | cons a k =>
      rw [insertAt_succ_cons, removeAt_succ_cons,
        ih k (by simpa using h)]

theorem insertAt_getD (i : Nat) (x : Int) (k : List Int) (h : i ≤ k.length) :
    (insertAt i x k).getD i 0 = x := by
  induction i generalizing k with
  | zero => simp [insertAt]
  | succ i ih =>
    cases k with
    | nil => simp at h
    | cons a k =>
      rw [insertAt_succ_cons, List.getD_cons_succ]
      exact ih k (by simpa using h)

theorem insertAt_removeAt (i : Nat) (k : List Int) (h : i < k.length) :
    insertAt i (k.getD i 0) (removeAt i k) = k := by
  induction i generalizing k with
  | zero =>
    cases k with
    | nil => simp at h
    | cons a k => simp [insertAt, removeAt]
  | succ i ih =>
    cases k with
    | nil => simp at h
    | cons a k =>
      rw [removeAt_succ_cons, List.getD_cons_succ, insertAt_succ_cons,
        ih k (by simpa using h)]

/-- C2: `split_axis` round-trips: looking up a reduced key and an axis
value in the nested result agrees exactly with looking up the re-expanded
key in the original Stack (so an inner entry exists iff the expanded key
existed, with the original stored value, and nothing is synthesized); in
particular every stored item of the Stack is recovered at its reduced key
and axis value. -/
theorem split_axis_roundtrip {α : Type} (S : MStack α) (x_axis : String)
    (hax : x_axis ∈ S.dims)
    (harity : ∀ k ∈ S.keys, k.length = S.dims.length)
    (hnd : S.keys.Nodup) :
    (∀ (rk : List Int) (x : Int),
      (assocLookup (S.split_axis x_axis) rk).bind (fun inner => assocLookup inner x) =
        assocLookup S.data (insertAt (S.dim_index x_axis) x rk)) ∧
    (∀ k v, (k, v) ∈ S.data →
      (assocLookup (S.split_axis x_axis) (removeAt (S.dim_index x_axis) k)).bind
        (fun inner => assocLookup inner (k.getD (S.dim_index x_axis) 0)) = some v) := by
  have hiL : S.dim_index x_axis < S.dims.length := List.indexOf_lt_length.mpr hax
  have hmain : ∀ (rk : List Int) (x : Int),
      (assocLookup (S.split_axis x_axis) rk).bind (fun inner => assocLookup inner x) =
        assocLookup S.data (insertAt (S.dim_index x_axis) x rk) := by
    intro rk x
    set i := S.dim_index x_axis with hidef
    set keys := S.keys with hkeys
    set xvals := dedupFirst (keys.map (fun k => k.getD i 0)) with hxvals
    set dimvals := dedupFirst (keys.map (fun k => removeAt i k)) with hdimvals
    set gfun : List Int → Int → Option (Int × α) := fun rk x =>
      if insertAt i x rk ∈ keys then
        (assocLookup S.data (insertAt i x rk)).map (fun v => (x, v))
      else none with hgfun
    have hsplit : S.split_axis x_axis =
        dimvals.map (fun rk => (rk, xvals.filterMap (gfun rk))) := by
      unfold MStack.split_axis MStack.split_keys_by_axis
      rfl
    have hg : ∀ rk x p, gfun rk x = some p → p.1 = x := by
      intro rk x p hp
      simp only [hgfun] at hp
      by_cases hin : insertAt i x rk ∈ keys
      · rw [if_pos hin] at hp
        cases hl : assocLookup S.data (insertAt i x rk) with
        | none => rw [hl] at hp; simp at hp
        | some v => rw [hl] at hp; simp at hp; rw [← hp]
      · rw [if_neg hin] at hp
        simp at hp
    set ek := insertAt i x rk with hek
    by_cases hekmem : ek ∈ keys
    · have hrkL : i ≤ rk.length := by
        have h1 : ek.length = rk.length + 1 := insertAt_length i x rk
        have h2 : ek.length = S.dims.length := harity ek hekmem
        omega
      have hred : removeAt i ek = rk := removeAt_insertAt i x rk hrkL
      have hgx : ek.getD i 0 = x := insertAt_getD i x rk hrkL
      have hrkmem : rk ∈ dimvals := by
        rw [hdimvals, dedupFirst_mem]
        exact hred ▸ List.mem_map_of_mem (fun k => removeAt i k) hekmem
      have hxmem : x ∈ xvals := by
        rw [hxvals, dedupFirst_mem]
        exact hgx ▸ List.mem_map_of_mem (fun k => k.getD i 0) hekmem
      rw [hsplit, assocLookup_map_self_mem _ hrkmem]
      simp only [Option.some_bind]
      rw [assocLookup_filterMap_mem (hg rk) (hxvals ▸ dedupFirst_nodup _) hxmem]
      simp only [hgfun, if_pos hekmem, ← hek]
      cases hl : assocLookup S.data ek with
      | none => rfl
      | some v => rfl
    · rw [(assocLookup_eq_none_iff (l := S.data) (k := ek)).mpr hekmem]
      by_cases hrkmem : rk ∈ dimvals
      · rw [hsplit, assocLookup_map_self_mem _ hrkmem]
        simp only [Option.some_bind]
        by_cases hxmem : x ∈ xvals
        · rw [assocLookup_filterMap_mem (hg rk) (hxvals ▸ dedupFirst_nodup _) hxmem]
          simp only [hgfun, if_neg hekmem]
          rfl
        · exact assocLookup_filterMap_not_mem (hg rk) hxmem
      · rw [hsplit, assocLookup_map_self_not_mem _ hrkmem]
        rfl
  refine ⟨hmain, ?_⟩
  intro k v hkv
  have hkmem : k ∈ S.keys := List.mem_map_of_mem Prod.fst hkv
  have hkL : S.dim_index x_axis < k.length := by
    rw [harity k hkmem]
    exact hiL
  rw [hmain (removeAt (S.dim_index x_axis) k) (k.getD (S.dim_index x_axis) 0),
    insertAt_removeAt _ _ hkL]
  exact assocLookup_of_mem_nodup hnd hkv

/-- Witness for `split_axis_roundtrip` on a concrete sparse 2-dimensional
stack (keys (0,1), (0,2), (3,1) over dimensions a, b, axis a). -/
theorem split_axis_roundtrip_witness :
    ((assocLookup (MStack.split_axis
        { dims := ["a", "b"], data := [([0, 1], 10), ([0, 2], 20), ([3, 1], 30)],
          empty_element := (0 : Int) } "a") [1]).bind
      (fun inner => assocLookup inner 3)) =
      assocLookup [([0, 1], (10 : Int)), ([0, 2], 20), ([3, 1], 30)] (insertAt 0 3 [1]) ∧
    ((assocLookup (MStack.split_axis
        { dims := ["a", "b"], data := [([0, 1], 10), ([0, 2], 20), ([3, 1], 30)],
          empty_element := (0 : Int) } "a") (removeAt 0 [0, 2])).bind
      (fun inner => assocLookup inner ([0, 2].getD 0 0))) = some 20 := by
  have h := split_axis_roundtrip
    { dims := ["a", "b"], data := [([0, 1], 10), ([0, 2], 20), ([3, 1], 30)],
      empty_element := (0 : Int) } "a" (by decide) (by decide) (by decide)
  exact ⟨h.1 [1] 3, h.2 [0, 2] 20 (by decide)⟩

theorem orderedInsertB_mem {le : γ → γ → Bool} {a b : γ} {l : List γ} :
    b ∈ orderedInsertB le a l ↔ b = a ∨ b ∈ l := by
  induction l with
  | nil => simp [orderedInsertB]
  | cons c l ih =>
    unfold orderedInsertB
    by_cases h : le a c
    · simp [h]
    · simp only [if_neg h, List.mem_cons, ih]
      tauto

theorem insertionSortB_mem {le : γ → γ → Bool} {b : γ} {l : List γ} :
    b ∈ insertionSortB le l ↔ b ∈ l := by
  induction l with
  | nil => simp [insertionSortB]
  | cons a l ih =>
    unfold insertionSortB
    rw [orderedInsertB_mem]
    simp [ih]

theorem insertionSortB_of_pairwise {le : γ → γ → Bool} {l : List γ}
    (h : l.Pairwise (fun a b => le a b = true)) : insertionSortB le l = l := by
  induction l with
  | nil => rfl
  | cons a l ih =>
    unfold insertionSortB
    rw [ih (List.Pairwise.of_cons h)]
    cases l with
    | nil => rfl
    | cons b l2 =>
      unfold orderedInsertB
      rw [if_pos ((List.pairwise_cons.mp h).1 b (List.mem_cons_self b l2))]

theorem projKey_zip (dims : List String) (k : List Int) (hnd : dims.Nodup)
    (hlen : k.length = dims.length) : projKey dims (dims.zip k) = k := by
  unfold projKey
  have hfilter : (dims.zip k).filter (fun p => decide (p.1 ∈ dims)) = dims.zip k := by
    apply List.filter_eq_self.mpr
    intro p hp
    exact decide_eq_true (List.of_mem_zip hp).1
  rw [hfilter]
  have hmap : (dims.zip k).map (fun p => (dims.indexOf p.1, p.2)) =
      (List.range dims.length).zip k := by
    apply List.ext_getElem
    · simp [hlen]
    · intro n h1 h2
      simp only [List.getElem_map, List.getElem_zip, List.getElem_range]
      have := List.get_indexOf hnd ⟨n, by simp at h1; omega⟩
      exact Prod.ext this rfl
  rw [hmap]
  have hsorted : insertionSortB pairIdxLeB ((List.range dims.length).zip k) =
      (List.range dims.length).zip k := by
    apply insertionSortB_of_pairwise
    apply List.pairwise_iff_getElem.mpr
    intro i j hi hj hij
    simp only [List.getElem_zip, List.getElem_range, pairIdxLeB]
    simp [hij]
  rw [hsorted]
  exact List.map_snd_zip _ _ (by simp [hlen])

theorem lookup_isSome_of_mem_keys [DecidableEq κ] {l : List (κ × δ)} {k : κ}
    (h : k ∈ l.map Prod.fst) : (assocLookup l k).isSome := by
  rw [Option.isSome_iff_ne_none]
  intro hn
  exact assocLookup_eq_none_iff.mp hn h

theorem dimension_keys_self_lookup {α : Type} (S : MStack α) (hnd : S.dims.Nodup)
    (har : ∀ k ∈ S.keys, k.length = S.dims.length) {dk : List (String × Int)}
    (hdk : dk ∈ S.dimension_keys) :
    (assocLookup S.data (projKey S.dims dk)).isSome := by
  obtain ⟨p, hp, heq⟩ := List.mem_map.mp hdk
  rw [← heq, projKey_zip S.dims p.1 hnd (har p.1 (List.mem_map_of_mem Prod.fst hp))]
  exact lookup_isSome_of_mem_keys (List.mem_map_of_mem Prod.fst hp)

theorem mulItem_isOk {α : Type} [Mul α] (S T : MStack α) (oin : Bool)
    (dk : List (String × Int))
    (h : (assocLookup S.data (projKey S.dims dk)).isSome ∨
      (assocLookup T.data (projKey T.dims dk)).isSome) :
    ∃ b, mulItem S T oin dk = Except.ok b := by
  unfold mulItem
  dsimp only
  cases hS : assocLookup S.data (projKey S.dims dk) with
  | some a =>
    cases hT : assocLookup T.data (projKey T.dims dk) with
    | some b => exact ⟨_, rfl⟩
    | none => exact ⟨_, rfl⟩
  | none =>
    cases hT : assocLookup T.data (projKey T.dims dk) with
    | some b => exact ⟨_, rfl⟩
    | none =>
      rcases h with h | h
      · rw [hS] at h
        simp at h
      · rw [hT] at h
        simp at h

theorem mapM_exists_ok {ε δ γ : Type} (f : γ → Except ε δ) (l : List γ)
    (h : ∀ a ∈ l, ∃ b, f a = .ok b) : ∃ out, l.mapM f = .ok out := by
  induction l with
  | nil => exact ⟨[], rfl⟩
  | cons a l ih =>
    obtain ⟨b, hb⟩ := h a (List.mem_cons_self a l)
    obtain ⟨out, hout⟩ := ih (fun x hx => h x (List.mem_cons_of_mem a hx))
    refine ⟨b :: out, ?_⟩
    rw [List.mapM_cons, hb, hout]
    rfl

/-- C7: `Stack * Stack` raises an error exactly when neither operand's
dimension-name set is a subset of the other's: two non-nested Stacks
always fail with the "strict subset" error, and (for well-formed stacks,
whose keys match their dimension arity) composition succeeds whenever one
name set includes or equals the other. -/
theorem stack_mul_subset_required {α : Type} [Mul α] (S T : MStack α)
    (hndS : S.dims.Nodup) (hndT : T.dims.Nodup)
    (harS : ∀ k ∈ S.keys, k.length = S.dims.length)
    (harT : ∀ k ∈ T.keys, k.length = T.dims.length) :
    (¬(subsetNames S.dims T.dims = true ∨ subsetNames T.dims S.dims = true) →
      mulStack S T = Except.error "One set of keys needs to be a strict subset of the other.") ∧
    ((subsetNames S.dims T.dims = true ∨ subsetNames T.dims S.dims = true) →
      ∃ R, mulStack S T = Except.ok R) := by
  constructor
  · intro h
    have h1 : subsetNames S.dims T.dims = false := by
      cases hb : subsetNames S.dims T.dims
      · rfl
      · exact absurd (Or.inl hb) h
    have h2 : subsetNames T.dims S.dims = false := by
      cases hb : subsetNames T.dims S.dims
      · rfl
      · exact absurd (Or.inr hb) h
    simp [mulStack, h1, h2]
  · intro h
    have hforall : ∀ super_keys : List (List (String × Int)),
        (∀ dk ∈ super_keys, dk ∈ S.dimension_keys ∨ dk ∈ T.dimension_keys) →
        ∃ out, super_keys.mapM (mulItem S T (subsetNames T.dims S.dims)) = .ok out := by
      intro super_keys hsrc
      apply mapM_exists_ok
      intro dk hdk
      rcases hsrc dk hdk with hs | ht
      · exact mulItem_isOk S T _ dk (Or.inl (dimension_keys_self_lookup S hndS harS hs))
      · exact mulItem_isOk S T _ dk (Or.inr (dimension_keys_self_lookup T hndT harT ht))
    by_cases h1 : subsetNames S.dims T.dims = true
    · by_cases h2 : subsetNames T.dims S.dims = true
      · obtain ⟨out, hout⟩ := hforall
          (insertionSortB dkLeB (dedupFirst (S.dimension_keys ++ T.dimension_keys)))
          (fun dk hdk => List.mem_append.mp (dedupFirst_mem.mp (insertionSortB_mem.mp hdk)))
        rw [h2] at hout
        refine ⟨{ dims := S.dims, data := cloneData out, empty_element := S.empty_element }, ?_⟩
        simp only [mulStack, h1, h2, Bool.and_self, if_true, hout]
      · obtain ⟨out, hout⟩ := hforall T.dimension_keys (fun dk hdk => Or.inr hdk)
        refine ⟨{ dims := T.dims, data := cloneData out, empty_element := S.empty_element }, ?_⟩
        have h2f : subsetNames T.dims S.dims = false := by
          cases hb : subsetNames T.dims S.dims
          · rfl
          · exact absurd hb h2
        rw [h2f] at hout
        simp only [mulStack, h1, h2f, Bool.true_and, Bool.and_false, if_false,
          Bool.false_eq_true, if_true, hout]
    · have h2 : subsetNames T.dims S.dims = true := by
        rcases h with hc | hc
        · exact absurd hc h1
        · exact hc
      have h1f : subsetNames S.dims T.dims = false := by
        cases hb : subsetNames S.dims T.dims
        · rfl
        · exact absurd hb h1
      obtain ⟨out, hout⟩ := hforall S.dimension_keys (fun dk hdk => Or.inl hdk)
      rw [h2] at hout
      refine ⟨{ dims := S.dims, data := cloneData out, empty_element := S.empty_element }, ?_⟩
      simp only [mulStack, h1f, h2, Bool.false_and, if_false, Bool.false_eq_true, if_true, hout]

/-- Witness for `stack_mul_subset_required`: disjoint dimension sets
`{a}` and `{b}` fail, nested sets `{a} ⊆ {a, b}` compose. -/
theorem stack_mul_subset_required_witness :
    mulStack { dims := ["a"], data := [([0], (1 : Int))], empty_element := 0 }
      { dims := ["b"], data := [([5], 2)], empty_element := 0 } =
      Except.error "One set of keys needs to be a strict subset of the other." ∧
    ∃ R, mulStack { dims := ["a"], data := [([0], (1 : Int))], empty_element := 0 }
      { dims := ["a", "b"], data := [([0, 1], 2)], empty_element := 0 } = Except.ok R := by
  constructor
  · exact (stack_mul_subset_required
      { dims := ["a"], data := [([0], (1 : Int))], empty_element := 0 }
      { dims := ["b"], data := [([5], 2)], empty_element := 0 }
      (by decide) (by decide) (by decide) (by decide)).1 (by decide)
  · exact (stack_mul_subset_required
      { dims := ["a"], data := [([0], (1 : Int))], empty_element := 0 }
      { dims := ["a", "b"], data := [([0, 1], 2)], empty_element := 0 }
      (by decide) (by decide) (by decide) (by decide)).2 (Or.inl (by decide))

theorem subsetNames_self (l : List String) : subsetNames l l = true := by
  simp [subsetNames]

theorem dedupFirst_nil [DecidableEq γ] : dedupFirst ([] : List γ) = [] := by
  simp [dedupFirst]

theorem dedupFirst_cons [DecidableEq γ] (a : γ) (l : List γ) :
    dedupFirst (a :: l) = a :: dedupFirst (l.filter (fun b => b ≠ a)) := by
  simp [dedupFirst]

theorem dedupFirst_eq_self_of_nodup [DecidableEq γ] {l : List γ} (h : l.Nodup) :
    dedupFirst l = l := by
  induction l with
  | nil => exact dedupFirst_nil
  | cons a l ih =>
    obtain ⟨ha, hl⟩ := List.nodup_cons.mp h
    rw [dedupFirst_cons]
    have hfil : l.filter (fun b => b ≠ a) = l := by
      apply List.filter_eq_self.mpr
      intro b hb
      exact decide_eq_true (fun hc => ha (hc ▸ hb))
    rw [hfil, ih hl]

theorem dedupFirst_map_inj [DecidableEq γ] [DecidableEq δ] {f : γ → δ} {l : List γ}
    (hinj : ∀ a ∈ l, ∀ b ∈ l, f a = f b → a = b) :
    dedupFirst (l.map f) = (dedupFirst l).map f := by
  induction l using dedupFirst.induct with
  | case1 => simp [dedupFirst_nil]
  | case2 a l ih =>
    rw [List.map_cons, dedupFirst_cons, dedupFirst_cons, List.map_cons]
    congr 1
    rw [List.filter_map]
    have hfeq : l.filter ((fun b => decide (b ≠ f a)) ∘ f) = l.filter (fun b => decide (b ≠ a)) := by
      apply List.filter_congr
      intro b hb
      simp only [Function.comp_apply, decide_eq_decide, ne_eq]
      constructor
      · intro hne hc
        exact hne (by rw [hc])
      · intro hne hc
        exact hne (hinj b (List.mem_cons_of_mem a hb) a (List.mem_cons_self a l) hc)
    rw [hfeq]
    exact ih (fun x hx y hy hxy =>
      hinj x (List.mem_cons_of_mem a (List.mem_of_mem_filter hx))
        y (List.mem_cons_of_mem a (List.mem_of_mem_filter hy)) hxy)

theorem orderedInsertB_perm (le : γ → γ → Bool) (a : γ) (l : List γ) :
    List.Perm (orderedInsertB le a l) (a :: l) := by
  induction l with
  | nil => exact List.Perm.refl _
  | cons b l ih =>
    unfold orderedInsertB
    by_cases h : le a b
    · rw [if_pos h]
    · rw [if_neg h]
      exact (List.Perm.cons b ih).trans (List.Perm.swap a b l)

theorem insertionSortB_perm (le : γ → γ → Bool) (l : List γ) :
    List.Perm (insertionSortB le l) l := by
  induction l with
  | nil => exact List.Perm.refl _
  | cons a l ih =>
    unfold insertionSortB
    exact (orderedInsertB_perm le a _).trans (List.Perm.cons a ih)

theorem insertionSortB_nodup {le : γ → γ → Bool} {l : List γ} (h : l.Nodup) :
    (insertionSortB le l).Nodup :=
  (insertionSortB_perm le l).symm.nodup h

theorem orderedInsertB_map (f : γ → δ) (leG : γ → γ → Bool) (leD : δ → δ → Bool)
    (a : γ) (m : List γ)
    (hcong : ∀ b ∈ m, leD (f a) (f b) = leG a b) :
    orderedInsertB leD (f a) (m.map f) = (orderedInsertB leG a m).map f := by
  induction m with
  | nil => rfl
  | cons b m ih =>
    simp only [List.map_cons]
    unfold orderedInsertB
    rw [hcong b (List.mem_cons_self b m)]
    by_cases h : leG a b
    · rw [if_pos h, if_pos h]
      rfl
    · rw [if_neg h, if_neg h]
      simp only [List.map_cons, List.cons.injEq, true_and]
      exact ih (fun c hc => hcong c (List.mem_cons_of_mem b hc))

theorem insertionSortB_map (f : γ → δ) (leG : γ → γ → Bool) (leD : δ → δ → Bool)
    (l : List γ)
    (hcong : ∀ a ∈ l, ∀ b ∈ l, leD (f a) (f b) = leG a b) :
    insertionSortB leD (l.map f) = (insertionSortB leG l).map f := by
  induction l with
  | nil => rfl
  | cons a l ih =>
    simp only [List.map_cons]
    unfold insertionSortB
    rw [ih (fun x hx y hy => hcong x (List.mem_cons_of_mem a hx) y (List.mem_cons_of_mem a hy))]
    exact orderedInsertB_map f leG leD a _ (fun b hb =>
      hcong a (List.mem_cons_self a l) b
        (List.mem_cons_of_mem a (insertionSortB_mem.mp hb)))

theorem zip_right_inj {d : List String} {k1 k2 : List Int}
    (h1 : k1.length = d.length) (h2 : k2.length = d.length)
    (h : d.zip k1 = d.zip k2) : k1 = k2 := by
  have e1 : (d.zip k1).map Prod.snd = k1 := List.map_snd_zip _ _ (le_of_eq h1)
  have e2 : (d.zip k2).map Prod.snd = k2 := List.map_snd_zip _ _ (le_of_eq h2)
  rw [← e1, ← e2, h]

theorem dkLeB_zip {d : List String} {k1 k2 : List Int}
    (h1 : k1.length = d.length) (h2 : k2.length = d.length) :
    dkLeB (d.zip k1) (d.zip k2) = keyLeB k1 k2 := by
  induction d generalizing k1 k2 with
  | nil =>
    have e1 : k1 = [] := List.length_eq_zero.mp h1
    have e2 : k2 = [] := List.length_eq_zero.mp h2
    subst e1; subst e2; rfl
  | cons d0 d ih =>
    cases k1 with
    | nil => simp at h1
    | cons x xs =>
      cases k2 with
      | nil => simp at h2
      | cons y ys =>
        simp only [List.zip_cons_cons, dkLeB, keyLeB, Prod.mk.injEq, true_and]
        by_cases hxy : x = y
        · rw [if_pos hxy, if_pos hxy]
          exact ih (by simpa using h1) (by simpa using h2)
        · rw [if_neg hxy, if_neg hxy]
          simp [pairLtB]

theorem mapM_eq_ok {ε δ γ : Type} {f : γ → Except ε δ} {g : γ → δ} {l : List γ}
    (h : ∀ a ∈ l, f a = .ok (g a)) : l.mapM f = .ok (l.map g) := by
  induction l with
  | nil => rfl
  | cons a l ih =>
    rw [List.mapM_cons, h a (List.mem_cons_self a l),
      ih (fun x hx => h x (List.mem_cons_of_mem a hx))]
    rfl

theorem mulItem_eq_ok {α : Type} [Mul α] (S T : MStack α) (oin : Bool)
    (dk : List (String × Int))
    (h : (assocLookup S.data (projKey S.dims dk)).isSome ∨
      (assocLookup T.data (projKey T.dims dk)).isSome) :
    mulItem S T oin dk = Except.ok
      (if oin then projKey S.dims dk else projKey T.dims dk,
       match assocLookup S.data (projKey S.dims dk),
             assocLookup T.data (projKey T.dims dk) with
       | some a, some b => a * b
       | some a, none => a * T.empty_element
       | none, some b => S.empty_element * b
       | none, none => S.empty_element * T.empty_element) := by
  unfold mulItem
  dsimp only
  cases hS : assocLookup S.data (projKey S.dims dk) with
  | some a =>
    cases hT : assocLookup T.data (projKey T.dims dk) with
    | some b => rfl
    | none => rfl
  | none =>
    cases hT : assocLookup T.data (projKey T.dims dk) with
    | some b => rfl
    | none =>
      rcases h with h | h
      · rw [hS] at h
        simp at h
      · rw [hT] at h
        simp at h

theorem cloneData_eq_self {α : Type} [Mul α] {items : List (List Int × α)}
    (hnd : (items.map Prod.fst).Nodup) : cloneData items = items := by
  have hgen : ∀ (acc : List (List Int × α)),
      (∀ k ∈ items.map Prod.fst, assocLookup acc k = none) →
      (items.map Prod.fst).Nodup →
      items.foldl (fun acc p => addItemM acc p.1 p.2) acc = acc ++ items := by
    intro acc
    induction items generalizing acc with
    | nil => intro _ _; simp
    | cons p rest ih =>
      intro hdisj hndc
      simp only [List.foldl_cons]
      have hp : assocLookup acc p.1 = none :=
        hdisj p.1 (List.mem_map_of_mem Prod.fst (List.mem_cons_self p rest))
      have hstep : addItemM acc p.1 p.2 = acc ++ [(p.1, p.2)] := by
        unfold addItemM
        rw [hp]
      rw [hstep]
      have hndc2 : p.1 ∉ rest.map Prod.fst ∧ (rest.map Prod.fst).Nodup := by
        rw [List.map_cons] at hndc
        exact List.nodup_cons.mp hndc
      obtain ⟨hph, hndr⟩ := hndc2
      rw [ih hndr (acc ++ [(p.1, p.2)]) ?_ hndr]
      · simp
      · intro k hk
        apply assocLookup_eq_none_iff.mpr
        simp only [List.map_append, List.map_cons, List.map_nil]
        intro hc
        rcases List.mem_append.mp hc with hc | hc
        · exact assocLookup_eq_none_iff.mp
            (hdisj k (List.mem_cons_of_mem _ hk)) hc
        · simp at hc
          exact hph (hc ▸ hk)
  unfold cloneData
  rw [hgen [] (fun k _ => rfl) hnd]
  rfl

theorem mapM_eq_ok_map {ε δ γ β2 : Type} {f : γ → Except ε δ} {h : β2 → γ} {g : β2 → δ}
    {l : List β2} (hok : ∀ a ∈ l, f (h a) = .ok (g a)) :
    (l.map h).mapM f = .ok (l.map g) := by
  induction l with
  | nil => rfl
  | cons a l ih =>
    rw [List.map_cons, List.mapM_cons, hok a (List.mem_cons_self a l),
      ih (fun x hx => hok x (List.mem_cons_of_mem a hx)), List.map_cons]
    rfl

/-- C1: for well-formed Stacks (distinct dimension names, keys of full
arity, distinct keys stored in sorted order) whose dimension lists are
equal, or whose dimension-name sets are in a strict subset relation,
`S * T` returns exactly the Stack the specification describes: the
superset side's Dimension list (`specMulDims`), the sorted union of
dimension keys restricted to the superset side (`specMulKeys`), and at
each such key the overlay of the two entries when both are present,
otherwise the overlay of the present entry with the absent side's
`empty_element` placeholder (`specMulValue`). -/
theorem stack_mul_spec {α : Type} [Mul α] (S T : MStack α)
    (hndS : S.dims.Nodup) (hndT : T.dims.Nodup)
    (harS : ∀ k ∈ S.keys, k.length = S.dims.length)
    (harT : ∀ k ∈ T.keys, k.length = T.dims.length)
    (hkndS : S.keys.Nodup) (hkndT : T.keys.Nodup)
    (hsortS : S.keys.Pairwise (fun a b => keyLeB a b = true))
    (hsortT : T.keys.Pairwise (fun a b => keyLeB a b = true))
    (hrel : S.dims = T.dims ∨
      (subsetNames T.dims S.dims = true ∧ subsetNames S.dims T.dims = false) ∨
      (subsetNames S.dims T.dims = true ∧ subsetNames T.dims S.dims = false)) :
    mulStack S T = Except.ok
      { dims := specMulDims S T,
        data := (specMulKeys S T).map (fun k => (k, specMulValue S T k)),
        empty_element := S.empty_element } := by
  rcases hrel with hdims | ⟨h2, h1⟩ | ⟨h1, h2⟩
  · -- the two dimension lists are equal
    have h1 : subsetNames S.dims T.dims = true := by
      rw [hdims]; exact subsetNames_self _
    have h2 : subsetNames T.dims S.dims = true := by
      rw [hdims]; exact subsetNames_self _
    have hDims : specMulDims S T = S.dims := by simp [specMulDims, h2]
    set U := S.keys ++ T.keys with hU
    set K := insertionSortB keyLeB (dedupFirst U) with hKdef
    have hK : specMulKeys S T = K := by
      simp [specMulKeys, h1, h2, hU]
    have harU : ∀ k ∈ U, k.length = S.dims.length := by
      intro k hk
      rcases List.mem_append.mp hk with hk | hk
      · exact harS k hk
      · rw [hdims]; exact harT k hk
    have hdkU : S.dimension_keys ++ T.dimension_keys =
        U.map (fun k => S.dims.zip k) := by
      rw [hU, List.map_append]
      congr 1
      · simp [MStack.dimension_keys, MStack.keys, List.map_map]
      · simp [MStack.dimension_keys, MStack.keys, List.map_map, hdims]
    have hinj : ∀ a ∈ U, ∀ b ∈ U, S.dims.zip a = S.dims.zip b → a = b := by
      intro a ha b hb hab
      exact zip_right_inj (harU a ha) (harU b hb) hab
    have hsuper : insertionSortB dkLeB (dedupFirst (S.dimension_keys ++ T.dimension_keys)) =
        K.map (fun k => S.dims.zip k) := by
      rw [hdkU, dedupFirst_map_inj hinj]
      rw [insertionSortB_map (fun k => S.dims.zip k) keyLeB dkLeB]
      intro a ha b hb
      exact dkLeB_zip (harU a (dedupFirst_mem.mp ha)) (harU b (dedupFirst_mem.mp hb))
    have hmemU : ∀ k ∈ K, k ∈ U := fun k hk =>
      dedupFirst_mem.mp (insertionSortB_mem.mp hk)
    have hitem : ∀ k ∈ K, mulItem S T true (S.dims.zip k) =
        .ok (k, specMulValue S T k) := by
      intro k hk
      have hkU := hmemU k hk
      have hkL : k.length = S.dims.length := harU k hkU
      have hprojS : projKey S.dims (S.dims.zip k) = k := projKey_zip _ _ hndS hkL
      have hprojT : projKey T.dims (S.dims.zip k) = k := by
        rw [hdims] at hkL ⊢
        exact projKey_zip _ _ hndT hkL
      have hsome : (assocLookup S.data (projKey S.dims (S.dims.zip k))).isSome ∨
          (assocLookup T.data (projKey T.dims (S.dims.zip k))).isSome := by
        rcases List.mem_append.mp hkU with hks | hkt
        · exact Or.inl (by rw [hprojS]; exact lookup_isSome_of_mem_keys hks)
        · exact Or.inr (by rw [hprojT]; exact lookup_isSome_of_mem_keys hkt)
      rw [mulItem_eq_ok S T true (S.dims.zip k) hsome]
      simp only [if_true, hprojS, hprojT]
      congr 1
      simp only [specMulValue, hDims, hprojS, hprojT]
    have hitems : (K.map (fun k => S.dims.zip k)).mapM (mulItem S T true) =
        .ok (K.map (fun k => (k, specMulValue S T k))) :=
      mapM_eq_ok_map hitem
    have hKnd : K.Nodup := insertionSortB_nodup (dedupFirst_nodup U)
    have hclone : cloneData (K.map (fun k => (k, specMulValue S T k))) =
        K.map (fun k => (k, specMulValue S T k)) := by
      apply cloneData_eq_self
      simp only [List.map_map]
      have hcomp : (Prod.fst ∘ fun k : List Int => (k, specMulValue S T k)) = id := rfl
      rw [hcomp, List.map_id]
      exact hKnd
    rw [hDims, hK]
    simp only [mulStack, h1, h2, Bool.and_self, if_true, hsuper]
    simp only [hitems, hclone]
  · -- S is the strict superset
    have hDims : specMulDims S T = S.dims := by simp [specMulDims, h2]
    have hK : specMulKeys S T = S.keys := by
      simp only [specMulKeys, h1, h2, if_true, if_false, Bool.false_eq_true, List.append_nil]
      rw [dedupFirst_eq_self_of_nodup hkndS, insertionSortB_of_pairwise hsortS]
    have hitem : ∀ k ∈ S.keys, mulItem S T true (S.dims.zip k) =
        .ok (k, specMulValue S T k) := by
      intro k hk
      have hprojS : projKey S.dims (S.dims.zip k) = k := projKey_zip _ _ hndS (harS k hk)
      have hsome : (assocLookup S.data (projKey S.dims (S.dims.zip k))).isSome ∨
          (assocLookup T.data (projKey T.dims (S.dims.zip k))).isSome :=
        Or.inl (by rw [hprojS]; exact lookup_isSome_of_mem_keys hk)
      rw [mulItem_eq_ok S T true (S.dims.zip k) hsome]
      simp only [if_true, hprojS]
      congr 1
      simp only [specMulValue, hDims, hprojS]
    have hdkS : S.dimension_keys = S.keys.map (fun k => S.dims.zip k) := by
      simp [MStack.dimension_keys, MStack.keys, List.map_map]
    have hitems : S.dimension_keys.mapM (mulItem S T true) =
        .ok (S.keys.map (fun k => (k, specMulValue S T k))) := by
      rw [hdkS]
      exact mapM_eq_ok_map hitem
    have hclone : cloneData (S.keys.map (fun k => (k, specMulValue S T k))) =
        S.keys.map (fun k => (k, specMulValue S T k)) := by
      apply cloneData_eq_self
      simp only [List.map_map]
      have hcomp : (Prod.fst ∘ fun k : List Int => (k, specMulValue S T k)) = id := rfl
      rw [hcomp, List.map_id]
      exact hkndS
    rw [hDims, hK]
    simp only [mulStack, h1, h2, Bool.false_and, Bool.false_eq_true, if_false, if_true]
    simp only [hitems, hclone]
  · -- T is the strict superset
    have hDims : specMulDims S T = T.dims := by simp [specMulDims, h2]
    have hK : specMulKeys S T = T.keys := by
      simp only [specMulKeys, h1, h2, if_true, if_false, Bool.false_eq_true, List.nil_append]
      rw [dedupFirst_eq_self_of_nodup hkndT, insertionSortB_of_pairwise hsortT]
    have hitem : ∀ k ∈ T.keys, mulItem S T false (T.dims.zip k) =
        .ok (k, specMulValue S T k) := by
      intro k hk
      have hprojT : projKey T.dims (T.dims.zip k) = k := projKey_zip _ _ hndT (harT k hk)
      have hsome : (assocLookup S.data (projKey S.dims (T.dims.zip k))).isSome ∨
          (assocLookup T.data (projKey T.dims (T.dims.zip k))).isSome :=
        Or.inr (by rw [hprojT]; exact lookup_isSome_of_mem_keys hk)
      rw [mulItem_eq_ok S T false (T.dims.zip k) hsome]
      simp only [Bool.false_eq_true, if_false, hprojT]
      congr 1
      simp only [specMulValue, hDims, hprojT]
    have hdkT : T.dimension_keys = T.keys.map (fun k => T.dims.zip k) := by
      simp [MStack.dimension_keys, MStack.keys, List.map_map]
    have hitems : T.dimension_keys.mapM (mulItem S T false) =
        .ok (T.keys.map (fun k => (k, specMulValue S T k))) := by
      rw [hdkT]
      exact mapM_eq_ok_map hitem
    have hclone : cloneData (T.keys.map (fun k => (k, specMulValue S T k))) =
        T.keys.map (fun k => (k, specMulValue S T k)) := by
      apply cloneData_eq_self
      simp only [List.map_map]
      have hcomp : (Prod.fst ∘ fun k : List Int => (k, specMulValue S T k)) = id := rfl
      rw [hcomp, List.map_id]
      exact hkndT
    rw [hDims, hK]
    simp only [mulStack, h1, h2, Bool.true_and, Bool.false_eq_true, if_false, if_true]
    simp only [hitems, hclone]

/-- Witness for `stack_mul_spec`: two one-dimensional integer stacks over
the same dimension with overlapping sorted keys `[0],[1]` and `[1],[2]`. -/
theorem stack_mul_spec_witness :
    mulStack { dims := ["a"], data := [([0], (2 : Int)), ([1], 3)], empty_element := 1 }
      { dims := ["a"], data := [([1], 5), ([2], 7)], empty_element := 1 } = Except.ok
      { dims := specMulDims
          { dims := ["a"], data := [([0], (2 : Int)), ([1], 3)], empty_element := 1 }
          { dims := ["a"], data := [([1], 5), ([2], 7)], empty_element := 1 },
        data := (specMulKeys
          { dims := ["a"], data := [([0], (2 : Int)), ([1], 3)], empty_element := 1 }
          { dims := ["a"], data := [([1], 5), ([2], 7)], empty_element := 1 }).map
          (fun k => (k, specMulValue
            { dims := ["a"], data := [([0], (2 : Int)), ([1], 3)], empty_element := 1 }
            { dims := ["a"], data := [([1], 5), ([2], 7)], empty_element := 1 } k)),
        empty_element := 1 } :=
  stack_mul_spec
    { dims := ["a"], data := [([0], (2 : Int)), ([1], 3)], empty_element := 1 }
    { dims := ["a"], data := [([1], 5), ([2], 7)], empty_element := 1 }
    (by decide) (by decide) (by decide) (by decide) (by decide) (by decide)
    (by decide) (by decide) (Or.inl rfl)

theorem listSet_length (l : List γ) (n : Nat) (v : γ) :
    (listSet l n v).length = l.length := by
  induction l generalizing n with
  | nil => rfl
  | cons a l ih =>
    cases n with
    | zero => rfl
    | succ n => simp [listSet, ih]

theorem listSet_get_eq (l : List γ) (n : Nat) (v : γ) (h : n < l.length) :
    List.get? (listSet l n v) n = some v := by
  induction l generalizing n with
  | nil => simp at h
  | cons a l ih =>
    cases n with
    | zero => rfl
    | succ n => exact ih n (by simpa using h)

theorem listSet_get_ne (l : List γ) (n m : Nat) (v : γ) (h : n ≠ m) :
    List.get? (listSet l n v) m = List.get? l m := by
  induction l generalizing n m with
  | nil => rfl
  | cons a l ih =>
    cases n with
    | zero =>
      cases m with
      | zero => exact absurd rfl h
      | succ m => rfl
    | succ n =>
      cases m with
      | zero => rfl
      | succ m => exact ih n m (fun hc => h (by rw [hc]))

theorem sameButTitle_refl (r : LayerRec) : sameButTitle r r :=
  ⟨rfl, rfl, rfl, rfl, rfl⟩

theorem sameButTitle_trans {r1 r2 r3 : LayerRec}
    (h1 : sameButTitle r2 r1) (h2 : sameButTitle r3 r2) : sameButTitle r3 r1 :=
  ⟨h2.1.trans h1.1, h2.2.1.trans h1.2.1, h2.2.2.1.trans h1.2.2.1,
   h2.2.2.2.1.trans h1.2.2.2.1, h2.2.2.2.2.trans h1.2.2.2.2⟩

theorem setTitleIds_preserves (tmpl : String) (dims : List String) (key : List Int)
    (ids : List Nat) (st : Store) (i : Nat) (r : LayerRec)
    (hr : List.get? st i = some r) :
    ∃ r2, List.get? (setTitleIds tmpl dims key st ids) i = some r2 ∧ sameButTitle r2 r := by
  unfold setTitleIds
  by_cases hdef : dims.length = 1 ∧ "Default" ∈ dims
  · rw [if_pos hdef]
    exact ⟨r, hr, sameButTitle_refl r⟩
  · rw [if_neg hdef]
    clear hdef
    induction ids generalizing st r with
    | nil => exact ⟨r, hr, sameButTitle_refl r⟩
    | cons j ids ih =>
      simp only [List.foldl_cons]
      cases hj : List.get? st j with
      | none =>
        exact ih st r hr
      | some rj =>
        by_cases hij : i = j
        · subst hij
          have hrj : rj = r := by
            rw [hr] at hj
            exact (Option.some.injEq _ _ ▸ hj).symm
          have hlt : i < st.length := by
            obtain ⟨h, _⟩ := List.get?_eq_some.mp hr
            exact h
          obtain ⟨r2, hr2, hsame⟩ := ih (listSet st i { rj with
              title := formatTitle tmpl (dimsString dims key) rj.label rj.cls })
            { rj with title := formatTitle tmpl (dimsString dims key) rj.label rj.cls }
            (listSet_get_eq st i _ hlt)
          refine ⟨r2, hr2, sameButTitle_trans ?_ hsame⟩
          rw [← hrj]
          exact ⟨rfl, rfl, rfl, rfl, rfl⟩
        · obtain ⟨r2, hr2, hsame⟩ := ih (listSet st j { rj with
              title := formatTitle tmpl (dimsString dims key) rj.label rj.cls }) r
            (by rw [listSet_get_ne st j i _ (fun hc => hij hc.symm)]; exact hr)
          exact ⟨r2, hr2, hsame⟩

theorem consItem_fst (item : List Int × List Nat)
    (res : Store × Except String (List (List Int × List Nat))) :
    (consItem item res).1 = res.1 := by
  obtain ⟨st, e⟩ := res
  cases e <;> rfl

theorem mulStoreItems_store_ext (S T : LStack) (oin : Bool)
    (dks : List (List (String × Int))) (st : Store) :
    ∃ ext, (mulStoreItems S T oin st dks).1 = st ++ ext := by
  induction dks generalizing st with
  | nil => exact ⟨[], by simp [mulStoreItems]⟩
  | cons dk rest ih =>
    unfold mulStoreItems
    dsimp only
    cases h1 : assocLookup S.data (projKey S.dims dk) with
    | some i =>
      cases h2 : assocLookup T.data (projKey T.dims dk) with
      | some j =>
        obtain ⟨ext, hext⟩ := ih st
        exact ⟨ext, by rw [consItem_fst]; exact hext⟩
      | none =>
        obtain ⟨ext, hext⟩ := ih (st ++ [({} : LayerRec)])
        exact ⟨[({} : LayerRec)] ++ ext, by rw [consItem_fst, hext, List.append_assoc]⟩
    | none =>
      cases h2 : assocLookup T.data (projKey T.dims dk) with
      | some j =>
        obtain ⟨ext, hext⟩ := ih (st ++ [({} : LayerRec)])
        exact ⟨[({} : LayerRec)] ++ ext, by rw [consItem_fst, hext, List.append_assoc]⟩
      | none => exact ⟨[], by simp⟩

theorem get?_append_left_of_some {l1 l2 : List γ} {i : Nat} {r : γ}
    (h : List.get? l1 i = some r) : List.get? (l1 ++ l2) i = some r := by
  induction l1 generalizing i with
  | nil => simp [List.get?] at h
  | cons a l ih =>
    cases i with
    | zero => simpa using h
    | succ i => simpa using ih (by simpa using h)

theorem foldl_setTitle_preserves (tmpl : String) (dims : List String)
    (items : List (List Int × List Nat)) (st : Store) (i : Nat) (r : LayerRec)
    (hr : List.get? st i = some r) :
    ∃ r2, List.get?
        (items.foldl (fun st2 p => setTitleIds tmpl dims p.1 st2 p.2) st) i = some r2 ∧
      sameButTitle r2 r := by
  induction items generalizing st r with
  | nil => exact ⟨r, hr, sameButTitle_refl r⟩
  | cons p rest ih =>
    simp only [List.foldl_cons]
    obtain ⟨r1, hr1, hsame1⟩ := setTitleIds_preserves tmpl dims p.1 p.2 st i r hr
    obtain ⟨r2, hr2, hsame2⟩ := ih _ r1 hr1
    exact ⟨r2, hr2, sameButTitle_trans hsame1 hsame2⟩

/-- C8 counterexample: composing two Stacks that share no structure but
hold distinct leaf views does mutate an operand's observable state — the
title of the layer stored in the left operand is rewritten by the
insertion-retitling of the result Stack (the layer object is shared),
refuting "all of its observable state (stored items and their titles ...)
is identical before and after". -/
theorem stack_mul_mutates_cex :
    (List.get? (mulStore
        [{ title := "t0", label := "L0" }, { title := "t1", label := "L1" }]
        { dims := ["a"], data := [([0], 0)] }
        { dims := ["a"], data := [([0], 1)] }).1 0).map LayerRec.title =
      some "L0 \n a = 0" ∧
    (List.get? ([{ title := "t0", label := "L0" }, { title := "t1", label := "L1" }] : Store)
        0).map LayerRec.title = some "t0" ∧
    ("L0 \n a = 0" ≠ "t0") ∧
    ([0], 0) ∈ LStack.data { dims := ["a"], data := [([0], 0)] } := by
  have hdd : dedupFirst [[("a", (0 : Int))], [("a", 0)]] = [[("a", (0 : Int))]] := by
    rw [dedupFirst_cons]
    norm_num [dedupFirst_nil]
  have h0 : mulStore
      [{ title := "t0", label := "L0" }, { title := "t1", label := "L1" }]
      { dims := ["a"], data := [([0], 0)] }
      { dims := ["a"], data := [([0], 1)] } =
      mulStoreWith { dims := ["a"], data := [([0], 0)] } { dims := ["a"], data := [([0], 1)] }
        true
        [{ title := "t0", label := "L0" }, { title := "t1", label := "L1" }]
        (insertionSortB dkLeB (dedupFirst [[("a", (0 : Int))], [("a", 0)]]))
        ["a"] := rfl
  rw [h0, hdd]
  decide

/-- C8 amended: `split_axis` and `sample` read their operands without
structural mutation (they are embedded as pure functions of the stack,
`MStack.split_axis` restoring the toggled key-check flag before
returning), and the composition operator `*` preserves every stored
layer's label, axis labels, style and class — but it does rewrite the
`title` attribute of layers shared between the result and the operands,
so operand titles are the one piece of observable state `*` may mutate. -/
theorem stack_mul_title_only (store : Store) (S T : LStack) (i : Nat) (r : LayerRec)
    (hr : List.get? store i = some r) :
    ∃ r2, List.get? (mulStore store S T).1 i = some r2 ∧ sameButTitle r2 r := by
  have hgen : ∀ (oin : Bool) (super : List (List (String × Int))) (dims2 : List String),
      ∃ r2, List.get? (mulStoreWith S T oin store super dims2).1 i = some r2 ∧
        sameButTitle r2 r := by
    intro oin super dims2
    unfold mulStoreWith
    obtain ⟨ext, hext⟩ := mulStoreItems_store_ext S T oin super store
    cases hM : mulStoreItems S T oin store super with
    | mk st res =>
      have hst : st = store ++ ext := by
        rw [hM] at hext
        exact hext
      have hri : List.get? st i = some r := by
        rw [hst]
        exact get?_append_left_of_some hr
      cases res with
      | error e => exact ⟨r, hri, sameButTitle_refl r⟩
      | ok items => exact foldl_setTitle_preserves S.title dims2 items st i r hri
  unfold mulStore
  dsimp only
  by_cases h1 : subsetNames S.dims T.dims
  · by_cases h2 : subsetNames T.dims S.dims
    · rw [if_pos (by rw [h1, h2]; rfl)]
      exact hgen _ _ _
    · rw [if_neg (by rw [h1]; simpa using h2), if_pos h1]
      exact hgen _ _ _
  · by_cases h2 : subsetNames T.dims S.dims
    · rw [if_neg (by simp [Bool.eq_false_iff.mpr h1]), if_neg h1, if_pos h2]
      exact hgen _ _ _
    · rw [if_neg (by simp [Bool.eq_false_iff.mpr h1]), if_neg h1, if_neg h2]
      exact ⟨r, hr, sameButTitle_refl r⟩

/-- Witness for `stack_mul_title_only` at the counterexample's store. -/
theorem stack_mul_title_only_witness :
    ∃ r2, List.get? (mulStore
        [{ title := "t0", label := "L0" }, { title := "t1", label := "L1" }]
        { dims := ["a"], data := [([0], 0)] }
        { dims := ["a"], data := [([0], 1)] }).1 0 = some r2 ∧
      sameButTitle r2 { title := "t0", label := "L0" } :=
  stack_mul_title_only
    [{ title := "t0", label := "L0" }, { title := "t1", label := "L1" }]
    { dims := ["a"], data := [([0], 0)] }
    { dims := ["a"], data := [([0], 1)] } 0 { title := "t0", label := "L0" } rfl

end DV
